import Mathlib

/-!
# Hash index utilities (`src/backend/access/hash/hashutil.c`)

A shallow embedding of the bucket arithmetic and the in-page binary searches of
the PostgreSQL hash access method, together with proofs of their contracts.

Machine integers are natural numbers; every place where the C code truncates a
value to `uint32` or to the 16-bit `OffsetNumber` is written out with an
explicit `%`.  Loops are run with an explicit amount of fuel and report when the
fuel is exhausted, so that "the function returns `r`" is always a statement
about a run that really finishes.
-/

namespace HashUtil

/-! ## Machine integers -/

/-- Number of values of a `uint32`. -/
def UINT32_MOD : Nat := 4294967296

/-- Number of values of an `OffsetNumber` (`uint16`). -/
def OFFSET_MOD : Nat := 65536

/-- Truncation of an integer value on assignment to a `uint32`. -/
def toUint32 (n : Nat) : Nat := n % UINT32_MOD

/-- Truncation of an integer value on assignment to an `OffsetNumber`. -/
def toOffsetNumber (n : Nat) : Nat := n % OFFSET_MOD

/-- The constant `FirstOffsetNumber` of `storage/off.h`. -/
def FirstOffsetNumber : Nat := 1

/-! ## Pages -/

/-- Modelled from the spec: the page abstraction of `storage/bufpage.h`, which is
not among the sources.  A page is an ordered sequence of index entries addressed
by 1-based offset, each entry holding exactly one hash key; it is represented by
the list of the hash keys of its entries, in offset order. -/
abbrev Page := List Nat

/-- Modelled from the spec: `PageGetMaxOffsetNumber`, the number of entries of
the page (its highest valid offset, 0 for an empty page). -/
def PageGetMaxOffsetNumber (page : Page) : Nat := page.length

/-- The hash key of the entry at offset `off`, that is
`_hash_get_indextuple_hashkey(PageGetItem(page, PageGetItemId(page, off)))`.
The lookup is defined only for `1 <= off <= PageGetMaxOffsetNumber(page)`. -/
def hashkeyAt (page : Page) (off : Nat) : Option Nat :=
  if off = 0 then none else page[off - 1]?

/-- The entries of the page are ordered ascending by hash key (duplicates
allowed). -/
def PageSorted (page : Page) : Prop := List.Sorted (fun a b => a ≤ b) page

instance (page : Page) : Decidable (PageSorted page) := by
  unfold PageSorted; infer_instance

/-- Outcome of a run of one of the search loops. -/
inductive SearchResult where
  | ok (off : Nat)
  | invalidOffset (off : Nat)
  | outOfFuel
  deriving DecidableEq, Repr

/-! ## `_hash_binsearch` -/

/-- The `while (upper > lower)` loop of `_hash_binsearch`. -/
def _hash_binsearch_loop (page : Page) (hash_value : Nat) :
    Nat → Nat → Nat → SearchResult
  | 0, upper, lower => if upper > lower then .outOfFuel else .ok lower
  | fuel + 1, upper, lower =>
    if upper > lower then
      let off := toOffsetNumber ((upper + lower) / 2)
      match hashkeyAt page off with
      | none => .invalidOffset off
      | some hashkey =>
        if hashkey < hash_value then
          _hash_binsearch_loop page hash_value fuel upper (toOffsetNumber (off + 1))
        else
          _hash_binsearch_loop page hash_value fuel off lower
    else .ok lower

/-- The function `_hash_binsearch`, run with `fuel` loop iterations available. -/
def _hash_binsearch (fuel : Nat) (page : Page) (hash_value : Nat) : SearchResult :=
  _hash_binsearch_loop page hash_value fuel
    (toOffsetNumber (PageGetMaxOffsetNumber page + 1)) FirstOffsetNumber

/-! ## `_hash_binsearch_last` -/

/-- The `while (upper > lower)` loop of `_hash_binsearch_last`. -/
def _hash_binsearch_last_loop (page : Page) (hash_value : Nat) :
    Nat → Nat → Nat → SearchResult
  | 0, upper, lower => if upper > lower then .outOfFuel else .ok lower
  | fuel + 1, upper, lower =>
    if upper > lower then
      let off := toOffsetNumber ((upper + lower + 1) / 2)
      match hashkeyAt page off with
      | none => .invalidOffset off
      | some hashkey =>
        if hashkey > hash_value then
          _hash_binsearch_last_loop page hash_value fuel
            (toOffsetNumber (off + OFFSET_MOD - 1)) lower
        else
          _hash_binsearch_last_loop page hash_value fuel upper off
    else .ok lower

/-- The function `_hash_binsearch_last`, run with `fuel` loop iterations
available. -/
def _hash_binsearch_last (fuel : Nat) (page : Page) (hash_value : Nat) : SearchResult :=
  _hash_binsearch_last_loop page hash_value fuel
    (toOffsetNumber (PageGetMaxOffsetNumber page))
    (toOffsetNumber (FirstOffsetNumber + OFFSET_MOD - 1))

/-! ## Bucket arithmetic -/

/-- The function `_hash_hashkey2bucket`. -/
def _hash_hashkey2bucket (hashkey maxbucket highmask lowmask : Nat) : Nat :=
  let bucket := hashkey &&& highmask
  if bucket > maxbucket then bucket &&& lowmask else bucket

/-- The `for (i = 0; limit < num; limit <<= 1, i++)` loop of `_hash_log2`, both
counters being `uint32`; `none` when the fuel runs out before the loop exits. -/
def _hash_log2_loop (num : Nat) : Nat → Nat → Nat → Option Nat
  | 0, limit, i => if limit < num then none else some i
  | fuel + 1, limit, i =>
    if limit < num then
      _hash_log2_loop num fuel (toUint32 (limit <<< 1)) (toUint32 (i + 1))
    else some i

/-- The function `_hash_log2`, run with `fuel` loop iterations available. -/
def _hash_log2 (fuel : Nat) (num : Nat) : Option Nat :=
  _hash_log2_loop num fuel 1 0

/-- Modelled from the spec: the loop behind `fls`, which is not among the
sources.  It counts the halvings that take `mask` to zero (at most `fuel` of
them), that is the position of the highest set bit of `mask` plus one. -/
def fls_loop : Nat → Nat → Nat
  | 0, _ => 0
  | fuel + 1, mask => if mask = 0 then 0 else fls_loop fuel (mask / 2) + 1

/-- Modelled from the spec: `fls` ("find last set", `src/port/fls.c`), which is
not among the sources.  The spec reads `fls(new_bucket) - 1` as the position of
the highest set bit of `new_bucket`, so for a nonzero `x` the value `fls x` is
that position plus one, the bit length of `x`; `fls 0 = 0`. -/
def fls (mask : Nat) : Nat := fls_loop mask mask

/-- The shift count `fls(new_bucket) - 1` of `_hash_get_oldblock_from_newbucket`,
an `int`. -/
def oldbucket_shift (new_bucket : Nat) : Int := (fls new_bucket : Int) - 1

/-- The local `mask` of `_hash_get_oldblock_from_newbucket`:
`(((uint32) 1) << (fls(new_bucket) - 1)) - 1`.  The shift is defined in C only for
a count in `0..31`; `none` otherwise. -/
def _hash_get_oldblock_from_newbucket_mask (new_bucket : Nat) : Option Nat :=
  let count := oldbucket_shift new_bucket
  if 0 ≤ count ∧ count < 32 then
    some (toUint32 (toUint32 (1 <<< count.toNat) + UINT32_MOD - 1))
  else none

/-- The local `old_bucket` of `_hash_get_oldblock_from_newbucket`:
`new_bucket & mask`. -/
def _hash_get_oldblock_from_newbucket_old_bucket (new_bucket : Nat) : Option Nat :=
  match _hash_get_oldblock_from_newbucket_mask new_bucket with
  | none => none
  | some mask => some (new_bucket &&& mask)

/-- The macro `CALC_NEW_BUCKET(old_bucket, lowmask)`: `old_bucket | (lowmask + 1)`
on `uint32` operands. -/
def CALC_NEW_BUCKET (old_bucket lowmask : Nat) : Nat :=
  old_bucket ||| toUint32 (lowmask + 1)

/-- The function `_hash_get_newbucket_from_oldbucket` (its `rel` argument is
unused). -/
def _hash_get_newbucket_from_oldbucket (old_bucket lowmask maxbucket : Nat) : Nat :=
  let new_bucket := CALC_NEW_BUCKET old_bucket lowmask
  if new_bucket > maxbucket then
    let lowmask := lowmask >>> 1
    CALC_NEW_BUCKET old_bucket lowmask
  else new_bucket

/-! ## Key extraction -/

/-- Modelled from the spec: a `Datum` of `postgres.h`, which is not among the
sources: an unsigned machine word. -/
abbrev Datum := Nat

/-- Modelled from the spec: `DatumGetUInt32`, the low 32 bits of a datum. -/
def DatumGetUInt32 (X : Datum) : Nat := toUint32 X

/-- Modelled from the spec: `UInt32GetDatum`, a 32-bit value stored in a datum. -/
def UInt32GetDatum (X : Nat) : Datum := X

/-- Modelled from the spec: the constant `InvalidOid`, the object identifier that
names no procedure. -/
def InvalidOid : Nat := 0

/-- Modelled from the spec: `RegProcedureIsValid`. -/
def RegProcedureIsValid (p : Nat) : Bool := p != InvalidOid

/-- Modelled from the spec: what `hashutil.c` reads of an index relation
(`utils/rel.h`, the function manager and the catalog cache are not among the
sources).  Hash procedures are black boxes taking a collation and a value to a
datum; the operator family maps a type to the identifier of the hash procedure
registered for it, or to `InvalidOid`. -/
structure Relation where
  /-- The call `FunctionCall1Coll(index_getprocinfo(rel, 1, HASHPROC), collation, key)`
  of the hash procedure of the index column. -/
  hashproc : Nat → Datum → Datum
  /-- The collation `rel->rd_indcollation[0]`. -/
  rd_indcollation : Nat
  /-- The lookup `get_opfamily_proc(rel->rd_opfamily[0], keytype, keytype, HASHPROC)`. -/
  get_opfamily_proc : Nat → Nat
  /-- The call `OidFunctionCall1Coll(hash_proc, collation, key)` of the procedure
  with identifier `hash_proc`. -/
  OidFunctionCall1Coll : Nat → Nat → Datum → Datum

/-- Errors raised by `elog(ERROR, ...)` in the key extraction. -/
inductive HashError where
  | missing_support_function (keytype : Nat)
  deriving DecidableEq, Repr

/-- The function `_hash_datum2hashkey`. -/
def _hash_datum2hashkey (rel : Relation) (key : Datum) : Nat :=
  let collation := rel.rd_indcollation
  DatumGetUInt32 (rel.hashproc collation key)

/-- The function `_hash_datum2hashkey_type`. -/
def _hash_datum2hashkey_type (rel : Relation) (key : Datum) (keytype : Nat) :
    Except HashError Nat :=
  let hash_proc := rel.get_opfamily_proc keytype
  if !RegProcedureIsValid hash_proc then
    .error (.missing_support_function keytype)
  else
    let collation := rel.rd_indcollation
    .ok (DatumGetUInt32 (rel.OidFunctionCall1Coll hash_proc collation key))

/-- The state `_hash_convert_tuple` leaves behind: its return value and the
contents of the two output arrays. -/
structure ConvertResult where
  result : Bool
  index_values : Nat → Datum
  index_isnull : Nat → Bool

/-- The function `_hash_convert_tuple`; an array is the map from its indices to
its elements. -/
def _hash_convert_tuple (index : Relation) (user_values : Nat → Datum)
    (user_isnull : Nat → Bool) (index_values : Nat → Datum)
    (index_isnull : Nat → Bool) : ConvertResult :=
  if user_isnull 0 then
    { result := false, index_values := index_values, index_isnull := index_isnull }
  else
    let hashkey := _hash_datum2hashkey index (user_values 0)
    { result := true
      index_values := fun i => if i = 0 then UInt32GetDatum hashkey else index_values i
      index_isnull := fun i => if i = 0 then false else index_isnull i }

/-- A sample index relation: a multiplicative hash procedure for the index
column, collation 100, and an operator family that registers procedure 400 for
type 23 only. -/
def sample_index : Relation where
  hashproc := fun collation key => key * 2654435761 + collation
  rd_indcollation := 100
  get_opfamily_proc := fun keytype => if keytype = 23 then 400 else InvalidOid
  OidFunctionCall1Coll := fun hash_proc collation key => key * 40503 + hash_proc + collation

/-! ## `_hash_checkpage` -/

/-- Modelled from the spec: the constants of `access/hash.h` that
`_hash_checkpage` compares with; the header is not among the sources, so they are
parameters. -/
structure HashConstants where
  LH_META_PAGE : Nat
  HASH_MAGIC : Nat
  HASH_VERSION : Nat
  /-- The value of `MAXALIGN(sizeof(HashPageOpaqueData))`. -/
  hasho_size : Nat

/-- Modelled from the spec: what `_hash_checkpage` reads of the page in the
buffer: `PageIsNew(page)`, `PageGetSpecialSize(page)`, the `hasho_flag` of the
special area, and the `hashm_magic` and `hashm_version` of the metapage view. -/
structure HashPage where
  page_is_new : Bool
  special_size : Nat
  hasho_flag : Nat
  hashm_magic : Nat
  hashm_version : Nat

/-- The four `ereport(ERROR, ...)` exits of `_hash_checkpage`. -/
inductive CheckError where
  | unexpected_zero_page
  | corrupted_page
  | not_a_hash_index
  | wrong_hash_version
  deriving DecidableEq, Repr

/-- The function `_hash_checkpage`; `flags` is the bit pattern of the `int`
argument. -/
def _hash_checkpage (c : HashConstants) (page : HashPage) (flags : Nat) :
    Except CheckError Unit :=
  if page.page_is_new then .error .unexpected_zero_page
  else if page.special_size ≠ c.hasho_size then .error .corrupted_page
  else if flags ≠ 0 ∧ (page.hasho_flag &&& flags) = 0 then .error .corrupted_page
  else if flags = c.LH_META_PAGE then
    if page.hashm_magic ≠ c.HASH_MAGIC then .error .not_a_hash_index
    else if page.hashm_version ≠ c.HASH_VERSION then .error .wrong_hash_version
    else .ok ()
  else .ok ()

/-- Sample values for the constants of `access/hash.h`. -/
def sample_constants : HashConstants where
  LH_META_PAGE := 8
  HASH_MAGIC := 105121344
  HASH_VERSION := 2
  hasho_size := 16

/-- A sample bucket page: initialised, special area of the expected size, flag
bits `2` (a bucket page), no metapage contents. -/
def sample_bucket_page : HashPage where
  page_is_new := false
  special_size := 16
  hasho_flag := 2
  hashm_magic := 0
  hashm_version := 0

/-! ## Lemmas on pages -/

theorem hashkeyAt_valid {page : Page} {off k : Nat} (h : hashkeyAt page off = some k) :
    1 ≤ off ∧ off ≤ page.length := by
  unfold hashkeyAt at h
  split at h
  · simp at h
  · rename_i h0
    have hlt : off - 1 < page.length := by
      by_contra hc
      rw [List.getElem?_eq_none (by omega)] at h
      simp at h
    omega

theorem hashkeyAt_exists {page : Page} {off : Nat} (h1 : 1 ≤ off) (h2 : off ≤ page.length) :
    ∃ k, hashkeyAt page off = some k := by
  unfold hashkeyAt
  have h0 : off ≠ 0 := by omega
  have hlt : off - 1 < page.length := by omega
  rw [if_neg h0, List.getElem?_eq_getElem hlt]
  exact ⟨_, rfl⟩

theorem hashkeyAt_mono {page : Page} (hs : PageSorted page) {i j a b : Nat}
    (hi : hashkeyAt page i = some a) (hj : hashkeyAt page j = some b) (hij : i ≤ j) :
    a ≤ b := by
  have vi := hashkeyAt_valid hi
  have vj := hashkeyAt_valid hj
  unfold hashkeyAt at hi hj
  have hi0 : i ≠ 0 := by omega
  have hj0 : j ≠ 0 := by omega
  have hil : i - 1 < page.length := by omega
  have hjl : j - 1 < page.length := by omega
  rw [if_neg hi0, List.getElem?_eq_getElem hil] at hi
  rw [if_neg hj0, List.getElem?_eq_getElem hjl] at hj
  simp only [Option.some.injEq] at hi hj
  subst hi; subst hj
  rcases Nat.eq_or_lt_of_le hij with h | h
  · subst h; exact le_refl _
  · have := (List.pairwise_iff_getElem.mp hs) (i - 1) (j - 1) hil hjl (by omega)
    exact this

/-! ## Correctness of the search loops -/

/-- Loop invariant of `_hash_binsearch`: `lower <= desired place <= upper`. -/
theorem binsearch_loop_spec (page : Page) (hash_value : Nat) (hs : PageSorted page)
    (hfit : page.length + 1 < OFFSET_MOD) :
    ∀ (fuel upper lower : Nat), 1 ≤ lower → lower ≤ upper → upper ≤ page.length + 1 →
      upper - lower ≤ fuel →
      (∀ off k, hashkeyAt page off = some k → off < lower → k < hash_value) →
      (∀ off k, hashkeyAt page off = some k → upper ≤ off → hash_value ≤ k) →
      ∃ r, _hash_binsearch_loop page hash_value fuel upper lower = .ok r ∧
        lower ≤ r ∧ r ≤ upper ∧
        (∀ off k, hashkeyAt page off = some k → off < r → k < hash_value) ∧
        (∀ off k, hashkeyAt page off = some k → r ≤ off → hash_value ≤ k) := by
  intro fuel
  induction fuel with
  | zero =>
    intro upper lower h1 hlu hup hfuel hlo hhi
    have heq : upper = lower := by omega
    subst heq
    refine ⟨upper, ?_, le_refl _, le_refl _, hlo, hhi⟩
    simp [_hash_binsearch_loop]
  | succ fuel ih =>
    intro upper lower h1 hlu hup hfuel hlo hhi
    unfold _hash_binsearch_loop
    by_cases hgt : upper > lower
    · rw [if_pos hgt]
      have hoff : toOffsetNumber ((upper + lower) / 2) = (upper + lower) / 2 := by
        unfold toOffsetNumber OFFSET_MOD at *
        exact Nat.mod_eq_of_lt (by omega)
      simp only [hoff]
      have hoff1 : 1 ≤ (upper + lower) / 2 := by omega
      have hoff2 : (upper + lower) / 2 ≤ page.length := by omega
      obtain ⟨key, hkey⟩ := hashkeyAt_exists hoff1 hoff2
      rw [hkey]
      simp only
      by_cases hlt : key < hash_value
      · rw [if_pos hlt]
        have hnext : toOffsetNumber ((upper + lower) / 2 + 1) = (upper + lower) / 2 + 1 := by
          unfold toOffsetNumber OFFSET_MOD at *
          exact Nat.mod_eq_of_lt (by omega)
        rw [hnext]
        obtain ⟨r, hr, hr1, hr2, hr3, hr4⟩ :=
          ih upper ((upper + lower) / 2 + 1) (by omega) (by omega) hup (by omega)
            (fun off k hk hlt2 =>
              lt_of_le_of_lt (hashkeyAt_mono hs hk hkey (by omega)) hlt)
            hhi
        exact ⟨r, hr, by omega, hr2, hr3, hr4⟩
      · rw [if_neg hlt]
        obtain ⟨r, hr, hr1, hr2, hr3, hr4⟩ :=
          ih ((upper + lower) / 2) lower h1 (by omega) (by omega) (by omega) hlo
            (fun off k hk hge =>
              le_trans (not_lt.mp hlt) (hashkeyAt_mono hs hkey hk hge))
        exact ⟨r, hr, hr1, by omega, hr3, hr4⟩
    · rw [if_neg hgt]
      have heq : upper = lower := by omega
      subst heq
      exact ⟨upper, rfl, le_refl _, le_refl _, hlo, hhi⟩

/-- Loop invariant of `_hash_binsearch_last`: `lower <= desired place <= upper`. -/
theorem binsearch_last_loop_spec (page : Page) (hash_value : Nat) (hs : PageSorted page)
    (hfit : page.length < OFFSET_MOD) :
    ∀ (fuel upper lower : Nat), lower ≤ upper → upper ≤ page.length →
      upper - lower ≤ fuel →
      (∀ off k, hashkeyAt page off = some k → off ≤ lower → k ≤ hash_value) →
      (∀ off k, hashkeyAt page off = some k → upper < off → hash_value < k) →
      ∃ r, _hash_binsearch_last_loop page hash_value fuel upper lower = .ok r ∧
        lower ≤ r ∧ r ≤ upper ∧
        (∀ off k, hashkeyAt page off = some k → off ≤ r → k ≤ hash_value) ∧
        (∀ off k, hashkeyAt page off = some k → r < off → hash_value < k) := by
  intro fuel
  induction fuel with
  | zero =>
    intro upper lower hlu hup hfuel hlo hhi
    have heq : upper = lower := by omega
    subst heq
    refine ⟨upper, ?_, le_refl _, le_refl _, hlo, hhi⟩
    simp [_hash_binsearch_last_loop]
  | succ fuel ih =>
    intro upper lower hlu hup hfuel hlo hhi
    unfold _hash_binsearch_last_loop
    by_cases hgt : upper > lower
    · rw [if_pos hgt]
      have hoff : toOffsetNumber ((upper + lower + 1) / 2) = (upper + lower + 1) / 2 := by
        unfold toOffsetNumber OFFSET_MOD at *
        exact Nat.mod_eq_of_lt (by omega)
      simp only [hoff]
      have hoff1 : 1 ≤ (upper + lower + 1) / 2 := by omega
      have hoff2 : (upper + lower + 1) / 2 ≤ page.length := by omega
      obtain ⟨key, hkey⟩ := hashkeyAt_exists hoff1 hoff2
      rw [hkey]
      simp only
      by_cases hlt : key > hash_value
      · rw [if_pos hlt]
        have hprev : toOffsetNumber ((upper + lower + 1) / 2 + OFFSET_MOD - 1)
            = (upper + lower + 1) / 2 - 1 := by
          unfold toOffsetNumber OFFSET_MOD at *
          omega
        rw [hprev]
        obtain ⟨r, hr, hr1, hr2, hr3, hr4⟩ :=
          ih ((upper + lower + 1) / 2 - 1) lower (by omega) (by omega) (by omega) hlo
            (fun off k hk hlt2 =>
              lt_of_lt_of_le hlt (hashkeyAt_mono hs hkey hk (by omega)))
        exact ⟨r, hr, hr1, by omega, hr3, hr4⟩
      · rw [if_neg hlt]
        obtain ⟨r, hr, hr1, hr2, hr3, hr4⟩ :=
          ih upper ((upper + lower + 1) / 2) (by omega) hup (by omega)
            (fun off k hk hle =>
              le_trans (hashkeyAt_mono hs hk hkey hle) (not_lt.mp hlt))
            hhi
        exact ⟨r, hr, by omega, hr2, hr3, hr4⟩
    · rw [if_neg hgt]
      have heq : upper = lower := by omega
      subst heq
      exact ⟨upper, rfl, le_refl _, le_refl _, hlo, hhi⟩

/-- Contract of `_hash_binsearch` on a sorted page. -/
theorem binsearch_spec (fuel : Nat) (page : Page) (hash_value : Nat) (hs : PageSorted page)
    (hfit : PageGetMaxOffsetNumber page + 1 < OFFSET_MOD)
    (hfuel : PageGetMaxOffsetNumber page ≤ fuel) :
    ∃ r, _hash_binsearch fuel page hash_value = .ok r ∧
      1 ≤ r ∧ r ≤ PageGetMaxOffsetNumber page + 1 ∧
      (∀ off k, hashkeyAt page off = some k → off < r → k < hash_value) ∧
      (∀ off k, hashkeyAt page off = some k → r ≤ off → hash_value ≤ k) := by
  unfold PageGetMaxOffsetNumber at *
  have hup : toOffsetNumber (page.length + 1) = page.length + 1 := by
    unfold toOffsetNumber
    exact Nat.mod_eq_of_lt hfit
  unfold _hash_binsearch PageGetMaxOffsetNumber FirstOffsetNumber
  rw [hup]
  obtain ⟨r, hr, hr1, hr2, hr3, hr4⟩ :=
    binsearch_loop_spec page hash_value hs hfit fuel (page.length + 1) 1 (le_refl _)
      (by omega) (le_refl _) (by omega)
      (fun off k hk hlt => by have := hashkeyAt_valid hk; omega)
      (fun off k hk hge => by have := hashkeyAt_valid hk; omega)
  exact ⟨r, hr, hr1, hr2, hr3, hr4⟩

/-- Contract of `_hash_binsearch_last` on a sorted page. -/
theorem binsearch_last_spec (fuel : Nat) (page : Page) (hash_value : Nat)
    (hs : PageSorted page) (hfit : PageGetMaxOffsetNumber page < OFFSET_MOD)
    (hfuel : PageGetMaxOffsetNumber page ≤ fuel) :
    ∃ r, _hash_binsearch_last fuel page hash_value = .ok r ∧
      r ≤ PageGetMaxOffsetNumber page ∧
      (∀ off k, hashkeyAt page off = some k → off ≤ r → k ≤ hash_value) ∧
      (∀ off k, hashkeyAt page off = some k → r < off → hash_value < k) := by
  unfold PageGetMaxOffsetNumber at *
  have hup : toOffsetNumber page.length = page.length := by
    unfold toOffsetNumber
    exact Nat.mod_eq_of_lt hfit
  have hlo : toOffsetNumber (FirstOffsetNumber + OFFSET_MOD - 1) = 0 := by
    unfold toOffsetNumber FirstOffsetNumber OFFSET_MOD
    rfl
  unfold _hash_binsearch_last PageGetMaxOffsetNumber
  rw [hup, hlo]
  obtain ⟨r, hr, _, hr2, hr3, hr4⟩ :=
    binsearch_last_loop_spec page hash_value hs hfit fuel page.length 0 (Nat.zero_le _)
      (le_refl _) (by omega)
      (fun off k hk hle => by have := hashkeyAt_valid hk; omega)
      (fun off k hk hgt => by have := hashkeyAt_valid hk; omega)
  exact ⟨r, hr, hr2, hr3, hr4⟩

/-- The two searches together delimit the run of entries equal to the target. -/
theorem binsearch_ties_spec (fuel : Nat) (page : Page) (hash_value : Nat)
    (hs : PageSorted page) (hfit : PageGetMaxOffsetNumber page + 1 < OFFSET_MOD)
    (hfuel : PageGetMaxOffsetNumber page ≤ fuel) :
    ∃ first last, _hash_binsearch fuel page hash_value = .ok first ∧
      _hash_binsearch_last fuel page hash_value = .ok last ∧
      (∀ off k, hashkeyAt page off = some k →
        (k = hash_value ↔ first ≤ off ∧ off ≤ last)) ∧
      ((∃ off, hashkeyAt page off = some hash_value) →
        hashkeyAt page first = some hash_value ∧ hashkeyAt page last = some hash_value ∧
        ∀ off, hashkeyAt page off = some hash_value → first ≤ off ∧ off ≤ last) ∧
      ((¬ ∃ off, hashkeyAt page off = some hash_value) → last + 1 = first) := by
  obtain ⟨first, hf, hf1, hf2, hf3, hf4⟩ := binsearch_spec fuel page hash_value hs hfit hfuel
  obtain ⟨last, hl, hl2, hl3, hl4⟩ :=
    binsearch_last_spec fuel page hash_value hs (by omega) hfuel
  have hiff : ∀ off k, hashkeyAt page off = some k →
      (k = hash_value ↔ first ≤ off ∧ off ≤ last) := by
    intro off k hk
    constructor
    · intro heq
      subst heq
      constructor
      · by_contra hc
        have := hf3 off k hk (by omega)
        omega
      · by_contra hc
        have := hl4 off k hk (by omega)
        omega
    · rintro ⟨h1, h2⟩
      have := hf4 off k hk h1
      have := hl3 off k hk h2
      omega
  have hgap : first ≤ last + 1 := by
    by_contra hc
    have hv1 : 1 ≤ last + 1 := by omega
    have hv2 : last + 1 ≤ page.length := by
      unfold PageGetMaxOffsetNumber at hf2; omega
    obtain ⟨k, hk⟩ := hashkeyAt_exists hv1 hv2
    have := hf3 (last + 1) k hk (by omega)
    have := hl4 (last + 1) k hk (by omega)
    omega
  refine ⟨first, last, hf, hl, hiff, ?_, ?_⟩
  · rintro ⟨off, hoff⟩
    have hrange := (hiff off hash_value hoff).mp rfl
    have hv := hashkeyAt_valid hoff
    obtain ⟨kf, hkf⟩ := hashkeyAt_exists hf1 (show first ≤ page.length by omega)
    obtain ⟨kl, hkl⟩ := hashkeyAt_exists (show 1 ≤ last by omega)
      (show last ≤ page.length by unfold PageGetMaxOffsetNumber at hl2; omega)
    have e1 : kf = hash_value := (hiff first kf hkf).mpr ⟨le_refl _, by omega⟩
    have e2 : kl = hash_value := (hiff last kl hkl).mpr ⟨by omega, le_refl _⟩
    subst e1
    refine ⟨hkf, ?_, fun o ho => (hiff o kf ho).mp rfl⟩
    rw [hkl, e2]
  · intro hno
    by_contra hc
    have hle : first ≤ last := by omega
    obtain ⟨kf, hkf⟩ := hashkeyAt_exists hf1
      (show first ≤ page.length by unfold PageGetMaxOffsetNumber at hl2; omega)
    have e1 : kf = hash_value := (hiff first kf hkf).mpr ⟨le_refl _, hle⟩
    exact hno ⟨first, by rw [hkf, e1]⟩

/-! ## Lemmas on bit arithmetic -/

theorem or_two_pow_of_lt {x k : Nat} (h : x < 2 ^ k) : x ||| 2 ^ k = 2 ^ k + x := by
  have h1 := Nat.mul_add_lt_is_or h 1
  rw [Nat.mul_one] at h1
  rw [Nat.or_comm]
  exact h1.symm

theorem or_two_pow_of_ge {x k : Nat} (h1 : 2 ^ k ≤ x) (h2 : x < 2 ^ (k + 1)) :
    x ||| 2 ^ k = x := by
  obtain ⟨r, rfl⟩ : ∃ r, x = 2 ^ k + r := ⟨x - 2 ^ k, by omega⟩
  have hr : r < 2 ^ k := by
    rw [pow_succ] at h2
    omega
  rw [← or_two_pow_of_lt hr, Nat.or_assoc, Nat.or_self]

theorem fls_loop_zero (fuel : Nat) : fls_loop fuel 0 = 0 := by
  cases fuel <;> simp [fls_loop]

theorem fls_loop_spec : ∀ (fuel mask : Nat), mask ≤ fuel → mask ≠ 0 →
    1 ≤ fls_loop fuel mask ∧ 2 ^ (fls_loop fuel mask - 1) ≤ mask ∧
      mask < 2 ^ (fls_loop fuel mask) := by
  intro fuel
  induction fuel with
  | zero => intro mask h1 h2; omega
  | succ fuel ih =>
    intro mask h1 h2
    unfold fls_loop
    rw [if_neg h2]
    by_cases hz : mask / 2 = 0
    · rw [hz, fls_loop_zero]
      have : mask = 1 := by omega
      subst this
      simp
    · obtain ⟨a, b, c⟩ := ih (mask / 2) (by omega) hz
      refine ⟨by omega, ?_, ?_⟩
      · have e : fls_loop fuel (mask / 2) + 1 - 1 = (fls_loop fuel (mask / 2) - 1) + 1 := by
          omega
        rw [e, pow_succ]
        omega
      · rw [pow_succ]
        omega

theorem fls_spec {mask : Nat} (h : mask ≠ 0) :
    1 ≤ fls mask ∧ 2 ^ (fls mask - 1) ≤ mask ∧ mask < 2 ^ (fls mask) :=
  fls_loop_spec mask mask (le_refl _) h

theorem fls_eq_of_bounds {mask p : Nat} (h1 : 2 ^ p ≤ mask) (h2 : mask < 2 ^ (p + 1)) :
    fls mask = p + 1 := by
  have hpos : 0 < 2 ^ p := Nat.two_pow_pos p
  obtain ⟨a, b, c⟩ := fls_spec (show mask ≠ 0 by omega)
  have l1 : p < fls mask :=
    (Nat.pow_lt_pow_iff_right (by decide : 1 < 2)).mp (lt_of_le_of_lt h1 c)
  have l2 : fls mask - 1 < p + 1 :=
    (Nat.pow_lt_pow_iff_right (by decide : 1 < 2)).mp (lt_of_le_of_lt b h2)
  omega

/-- The old-bucket derivation on a bucket written as `2 ^ p + x` with `x < 2 ^ p`:
the mask is `2 ^ p - 1` and the old bucket is `x`. -/
theorem old_bucket_of_two_pow_add {p x : Nat} (hp : p ≤ 31) (hx : x < 2 ^ p) :
    fls (2 ^ p + x) = p + 1 ∧
    oldbucket_shift (2 ^ p + x) = (p : Int) ∧
    _hash_get_oldblock_from_newbucket_mask (2 ^ p + x) = some (2 ^ p - 1) ∧
    _hash_get_oldblock_from_newbucket_old_bucket (2 ^ p + x) = some x := by
  have hfls : fls (2 ^ p + x) = p + 1 :=
    fls_eq_of_bounds (by omega) (by rw [pow_succ]; omega)
  have hshift : oldbucket_shift (2 ^ p + x) = (p : Int) := by
    unfold oldbucket_shift
    rw [hfls]
    push_cast
    omega
  have hpow : 2 ^ p < UINT32_MOD := by
    have : 2 ^ p ≤ 2 ^ 31 := Nat.pow_le_pow_right (by decide) hp
    unfold UINT32_MOD
    omega
  have hpos : 0 < 2 ^ p := Nat.two_pow_pos p
  have hmask : _hash_get_oldblock_from_newbucket_mask (2 ^ p + x) = some (2 ^ p - 1) := by
    unfold _hash_get_oldblock_from_newbucket_mask
    simp only [hshift]
    rw [if_pos ⟨by omega, by omega⟩]
    simp only [Int.toNat_ofNat, Nat.one_shiftLeft]
    unfold toUint32
    rw [Nat.mod_eq_of_lt hpow]
    have e : (2 ^ p + UINT32_MOD - 1) % UINT32_MOD = 2 ^ p - 1 := by
      unfold UINT32_MOD at *
      omega
    rw [e]
  refine ⟨hfls, hshift, hmask, ?_⟩
  unfold _hash_get_oldblock_from_newbucket_old_bucket
  rw [hmask]
  simp only
  rw [Nat.and_pow_two_sub_one_eq_mod, Nat.add_mod_left, Nat.mod_eq_of_lt hx]

/-- Every nonzero `uint32` is `2 ^ p + x` with `p <= 31` and `x < 2 ^ p`. -/
theorem exists_two_pow_add {n : Nat} (h1 : 1 ≤ n) (h2 : n < UINT32_MOD) :
    ∃ p x, p ≤ 31 ∧ x < 2 ^ p ∧ n = 2 ^ p + x := by
  obtain ⟨a, b, c⟩ := fls_spec (show n ≠ 0 by omega)
  refine ⟨fls n - 1, n - 2 ^ (fls n - 1), ?_, ?_, by omega⟩
  · have : 2 ^ (fls n - 1) < 2 ^ 32 := by
      unfold UINT32_MOD at h2
      omega
    have := (Nat.pow_lt_pow_iff_right (by decide : 1 < 2)).mp this
    omega
  · have e : fls n = (fls n - 1) + 1 := by omega
    rw [e, pow_succ] at c
    omega

/-! ## Lemmas on `_hash_log2` -/

/-- A finished run of the loop of `_hash_log2` is not changed by more fuel. -/
theorem hash_log2_loop_mono (num extra : Nat) :
    ∀ (fuel limit i v : Nat), _hash_log2_loop num fuel limit i = some v →
      _hash_log2_loop num (fuel + extra) limit i = some v := by
  intro fuel
  induction fuel with
  | zero =>
    intro limit i v h
    unfold _hash_log2_loop at h
    by_cases hlt : limit < num
    · rw [if_pos hlt] at h
      exact absurd h (by simp)
    · rw [if_neg hlt] at h
      cases extra with
      | zero => simp [_hash_log2_loop, hlt, h]
      | succ e =>
        rw [Nat.zero_add]
        unfold _hash_log2_loop
        rw [if_neg hlt]
        exact h
  | succ fuel ih =>
    intro limit i v h
    have e : fuel + 1 + extra = (fuel + extra) + 1 := by omega
    rw [e]
    unfold _hash_log2_loop at h ⊢
    by_cases hlt : limit < num
    · rw [if_pos hlt] at h ⊢
      exact ih _ _ _ h
    · rw [if_neg hlt] at h ⊢
      exact h

/-- Once the limit has wrapped around to 0 the loop of `_hash_log2` never exits. -/
theorem hash_log2_loop_stuck (num : Nat) (hnum : 0 < num) :
    ∀ (fuel i : Nat), _hash_log2_loop num fuel 0 i = none := by
  intro fuel
  induction fuel with
  | zero => intro i; simp [_hash_log2_loop, hnum]
  | succ fuel ih =>
    intro i
    unfold _hash_log2_loop
    rw [if_pos hnum]
    have e : toUint32 (0 <<< 1) = 0 := by decide
    rw [e]
    exact ih _

theorem toUint32_shiftLeft_two_pow {j : Nat} (hj : j ≤ 31) :
    toUint32 (2 ^ j <<< 1) = if j = 31 then 0 else 2 ^ (j + 1) := by
  unfold toUint32 UINT32_MOD
  rw [Nat.shiftLeft_eq, pow_one, ← pow_succ]
  by_cases h : j = 31
  · subst h; rfl
  · rw [if_neg h]
    have : 2 ^ (j + 1) ≤ 2 ^ 31 := Nat.pow_le_pow_right (by decide) (by omega)
    exact Nat.mod_eq_of_lt (by omega)

/-- For `num` above `2 ^ 31` the loop of `_hash_log2` never exits, whatever the
fuel: every power of two that fits in a `uint32` is below `num`, and the next
doubling wraps to 0. -/
theorem hash_log2_loop_diverges (num : Nat) (hnum : 2 ^ 31 < num) :
    ∀ (fuel j i : Nat), j ≤ 31 → _hash_log2_loop num fuel (2 ^ j) i = none := by
  intro fuel
  induction fuel with
  | zero =>
    intro j i hj
    have : 2 ^ j ≤ 2 ^ 31 := Nat.pow_le_pow_right (by decide) hj
    have hlt : 2 ^ j < num := by omega
    simp [_hash_log2_loop, hlt]
  | succ fuel ih =>
    intro j i hj
    have : 2 ^ j ≤ 2 ^ 31 := Nat.pow_le_pow_right (by decide) hj
    have hlt : 2 ^ j < num := by omega
    unfold _hash_log2_loop
    rw [if_pos hlt, toUint32_shiftLeft_two_pow hj]
    by_cases h : j = 31
    · rw [if_pos h]
      exact hash_log2_loop_stuck num (by omega) _ _
    · rw [if_neg h]
      exact ih _ _ (by omega)

/-- For `num` up to `2 ^ 31` the loop of `_hash_log2` started at `limit = 2 ^ j`,
`i = j` exits with the least `r` such that `num <= 2 ^ r`. -/
theorem hash_log2_loop_spec (num : Nat) (hnum : num ≤ 2 ^ 31) :
    ∀ (fuel j : Nat), j ≤ 31 → 31 ≤ fuel + j → (∀ m, m < j → 2 ^ m < num) →
      ∃ r, _hash_log2_loop num fuel (2 ^ j) j = some r ∧ r ≤ 31 ∧ num ≤ 2 ^ r ∧
        ∀ m, m < r → 2 ^ m < num := by
  intro fuel
  induction fuel with
  | zero =>
    intro j hj hf hbelow
    have hj31 : j = 31 := by omega
    subst hj31
    refine ⟨31, ?_, le_refl _, hnum, hbelow⟩
    have hlt : ¬ 2 ^ 31 < num := by omega
    unfold _hash_log2_loop
    rw [if_neg hlt]
  | succ fuel ih =>
    intro j hj hf hbelow
    unfold _hash_log2_loop
    by_cases hlt : 2 ^ j < num
    · have hj31 : j ≠ 31 := by
        intro h
        subst h
        omega
      rw [if_pos hlt, toUint32_shiftLeft_two_pow hj, if_neg hj31]
      have hi : toUint32 (j + 1) = j + 1 := by
        unfold toUint32 UINT32_MOD
        exact Nat.mod_eq_of_lt (by omega)
      rw [hi]
      refine ih (j + 1) (by omega) (by omega) ?_
      intro m hm
      rcases Nat.eq_or_lt_of_le (Nat.lt_succ_iff.mp hm) with h | h
      · subst h; exact hlt
      · exact hbelow m h
    · rw [if_neg hlt]
      exact ⟨j, rfl, hj, by omega, hbelow⟩

/-- Contract of `_hash_log2` on its working range `num <= 2 ^ 31`: with at least
31 iterations of fuel it returns the least `r` with `num <= 2 ^ r`. -/
theorem hash_log2_spec (fuel num : Nat) (hnum : num ≤ 2 ^ 31) (hfuel : 31 ≤ fuel) :
    ∃ r, _hash_log2 fuel num = some r ∧ r ≤ 31 ∧ num ≤ 2 ^ r ∧
      ∀ m, m < r → 2 ^ m < num := by
  unfold _hash_log2
  have h := hash_log2_loop_spec num hnum fuel 0 (by omega) (by omega)
    (fun m hm => absurd hm (Nat.not_lt_zero m))
  simpa using h

/-! ## Lemmas on the new-bucket derivation -/

theorem calc_new_bucket_two_pow (old_bucket : Nat) {k : Nat} (hk : k ≤ 31) :
    CALC_NEW_BUCKET old_bucket (2 ^ k - 1) = old_bucket ||| 2 ^ k := by
  unfold CALC_NEW_BUCKET toUint32 UINT32_MOD
  have hpos : 0 < 2 ^ k := Nat.two_pow_pos k
  have hle : 2 ^ k ≤ 2 ^ 31 := Nat.pow_le_pow_right (by decide) hk
  have e : 2 ^ k - 1 + 1 = 2 ^ k := by omega
  rw [e, Nat.mod_eq_of_lt (by omega)]

theorem calc_new_bucket_wrap (old_bucket : Nat) {k : Nat} (hk : 32 ≤ k) :
    CALC_NEW_BUCKET old_bucket (2 ^ k - 1) = old_bucket := by
  unfold CALC_NEW_BUCKET toUint32 UINT32_MOD
  have hpos : 0 < 2 ^ k := Nat.two_pow_pos k
  have e : 2 ^ k - 1 + 1 = 2 ^ k := by omega
  have hdvd : 4294967296 ∣ 2 ^ k := by
    have : (2 : Nat) ^ 32 ∣ 2 ^ k := Nat.pow_dvd_pow 2 hk
    simpa using this
  rw [e, Nat.mod_eq_zero_of_dvd hdvd, Nat.or_zero]

theorem two_pow_sub_one_shiftRight (k : Nat) : (2 ^ k - 1) >>> 1 = 2 ^ (k - 1) - 1 := by
  rw [Nat.shiftRight_eq_div_pow, pow_one]
  cases k with
  | zero => rfl
  | succ m =>
    have hpos : 0 < 2 ^ m := Nat.two_pow_pos m
    rw [pow_succ, Nat.add_sub_cancel]
    omega

/-- The two candidates of `_hash_get_newbucket_from_oldbucket` for a mask
`lowmask = 2 ^ k - 1` that leaves room for the next table half. -/
theorem newbucket_eq (old_bucket maxbucket : Nat) {k : Nat} (hk : k ≤ 31) :
    _hash_get_newbucket_from_oldbucket old_bucket (2 ^ k - 1) maxbucket =
      if old_bucket ||| 2 ^ k > maxbucket then old_bucket ||| 2 ^ (k - 1)
      else old_bucket ||| 2 ^ k := by
  unfold _hash_get_newbucket_from_oldbucket
  simp only [calc_new_bucket_two_pow old_bucket hk, two_pow_sub_one_shiftRight,
    calc_new_bucket_two_pow old_bucket (show k - 1 ≤ 31 by omega)]

theorem old_bucket_zero : _hash_get_oldblock_from_newbucket_old_bucket 0 = none := by
  decide

/-- A bucket whose old bucket is `old_bucket` is `2 ^ p + old_bucket` for some
`p` with `old_bucket < 2 ^ p`. -/
theorem old_bucket_inv {new_bucket old_bucket : Nat} (h32 : new_bucket < UINT32_MOD)
    (h : _hash_get_oldblock_from_newbucket_old_bucket new_bucket = some old_bucket) :
    ∃ p, p ≤ 31 ∧ old_bucket < 2 ^ p ∧ new_bucket = 2 ^ p + old_bucket := by
  have hnb : 1 ≤ new_bucket := by
    by_contra hc
    have h0 : new_bucket = 0 := by omega
    subst h0
    rw [old_bucket_zero] at h
    exact absurd h (by simp)
  obtain ⟨p, x, hp, hx, rfl⟩ := exists_two_pow_add hnb h32
  rw [(old_bucket_of_two_pow_add hp hx).2.2.2] at h
  injection h with h
  subst h
  exact ⟨p, hp, hx, rfl⟩

/-- Round trip from an old bucket to its new bucket and back. -/
theorem newbucket_roundtrip (k maxbucket old_bucket : Nat) (hk : k ≤ 31)
    (hold : old_bucket ≤ 2 ^ k - 1)
    (hsplit : _hash_get_newbucket_from_oldbucket old_bucket (2 ^ k - 1) maxbucket
      ≠ old_bucket) :
    _hash_get_oldblock_from_newbucket_old_bucket
      (_hash_get_newbucket_from_oldbucket old_bucket (2 ^ k - 1) maxbucket)
      = some old_bucket := by
  have hpos : 0 < 2 ^ k := Nat.two_pow_pos k
  have hlt : old_bucket < 2 ^ k := by omega
  rw [newbucket_eq old_bucket maxbucket hk] at hsplit ⊢
  rw [or_two_pow_of_lt hlt] at hsplit ⊢
  by_cases hgt : 2 ^ k + old_bucket > maxbucket
  · rw [if_pos hgt] at hsplit ⊢
    by_cases hlow : old_bucket < 2 ^ (k - 1)
    · rw [or_two_pow_of_lt hlow]
      exact (old_bucket_of_two_pow_add (by omega) hlow).2.2.2
    · exfalso
      apply hsplit
      cases k with
      | zero => simp at hlt hlow; omega
      | succ m =>
        simp only [Nat.add_sub_cancel] at hlow ⊢
        exact or_two_pow_of_ge (by omega) hlt
  · rw [if_neg hgt]
    exact (old_bucket_of_two_pow_add hk hlt).2.2.2

/-- The new bucket exists whenever the table has at least two buckets. -/
theorem newbucket_le_maxbucket (k maxbucket old_bucket : Nat) (hk : 1 ≤ k)
    (hlow : 2 ^ k - 1 ≤ maxbucket) (hhigh : maxbucket ≤ 2 * (2 ^ k - 1) + 1)
    (hold : old_bucket ≤ maxbucket) :
    _hash_get_newbucket_from_oldbucket old_bucket (2 ^ k - 1) maxbucket ≤ maxbucket := by
  by_cases hk32 : 32 ≤ k
  · unfold _hash_get_newbucket_from_oldbucket
    simp only [calc_new_bucket_wrap old_bucket hk32]
    rw [if_neg (by omega)]
    exact hold
  · have hk31 : k ≤ 31 := by omega
    have hpos : 0 < 2 ^ k := Nat.two_pow_pos k
    rw [newbucket_eq old_bucket maxbucket hk31]
    by_cases hgt : old_bucket ||| 2 ^ k > maxbucket
    · rw [if_pos hgt]
      by_cases hlt : old_bucket < 2 ^ k
      · have h1 : 2 ^ (k - 1) < 2 ^ k :=
          Nat.pow_lt_pow_right (by decide) (by omega)
        have := Nat.or_lt_two_pow hlt h1
        omega
      · exfalso
        have hlt2 : old_bucket < 2 ^ (k + 1) := by
          rw [pow_succ]
          omega
        rw [or_two_pow_of_ge (by omega) hlt2] at hgt
        omega
    · rw [if_neg hgt]
      omega

/-- The new bucket is the highest-numbered existing bucket split from the old
bucket. -/
theorem newbucket_is_highest (k maxbucket old_bucket : Nat) (hk : k ≤ 31)
    (hlow : 2 ^ k - 1 ≤ maxbucket) (hhigh : maxbucket ≤ 2 * (2 ^ k - 1) + 1)
    (hex : ∃ nb, nb ≤ maxbucket ∧
      _hash_get_oldblock_from_newbucket_old_bucket nb = some old_bucket) :
    _hash_get_newbucket_from_oldbucket old_bucket (2 ^ k - 1) maxbucket ≤ maxbucket ∧
    _hash_get_oldblock_from_newbucket_old_bucket
      (_hash_get_newbucket_from_oldbucket old_bucket (2 ^ k - 1) maxbucket)
      = some old_bucket ∧
    ∀ nb, nb ≤ maxbucket →
      _hash_get_oldblock_from_newbucket_old_bucket nb = some old_bucket →
      nb ≤ _hash_get_newbucket_from_oldbucket old_bucket (2 ^ k - 1) maxbucket := by
  have hpos : 0 < 2 ^ k := Nat.two_pow_pos k
  have hk2 : 2 ^ k ≤ 2 ^ 31 := Nat.pow_le_pow_right (by decide) hk
  have hmax32 : maxbucket < UINT32_MOD := by
    unfold UINT32_MOD
    omega
  -- every bucket split from `old_bucket` that exists is `2 ^ p + old_bucket`, `p <= k`
  have hform : ∀ nb, nb ≤ maxbucket →
      _hash_get_oldblock_from_newbucket_old_bucket nb = some old_bucket →
      ∃ p, p ≤ k ∧ old_bucket < 2 ^ p ∧ nb = 2 ^ p + old_bucket := by
    intro nb hnb hob
    obtain ⟨p, _, hx, rfl⟩ := old_bucket_inv (by omega) hob
    refine ⟨p, ?_, hx, rfl⟩
    have h1 : 2 ^ p < 2 ^ (k + 1) := by
      rw [pow_succ]
      omega
    have := (Nat.pow_lt_pow_iff_right (by decide : 1 < 2)).mp h1
    omega
  obtain ⟨nb0, hnb0, hob0⟩ := hex
  obtain ⟨p0, hp0, hx0, rfl⟩ := hform nb0 hnb0 hob0
  have hp0k : 2 ^ p0 ≤ 2 ^ k := Nat.pow_le_pow_right (by decide) hp0
  have hlt : old_bucket < 2 ^ k := by omega
  rw [newbucket_eq old_bucket maxbucket hk, or_two_pow_of_lt hlt]
  by_cases hgt : 2 ^ k + old_bucket > maxbucket
  · rw [if_pos hgt]
    -- no existing bucket uses the bit `k`, so all of them use a bit below `k`
    have hbelow : ∀ p, p ≤ k → 2 ^ p + old_bucket ≤ maxbucket → 2 ^ p ≤ 2 ^ (k - 1) := by
      intro p hp hle
      have hne : p ≠ k := by
        intro h
        subst h
        omega
      exact Nat.pow_le_pow_right (by decide) (by omega)
    have h0 := hbelow p0 hp0 hnb0
    have hlt1 : old_bucket < 2 ^ (k - 1) := by omega
    have hk1 : 1 ≤ k := by
      by_contra hc
      have hk0 : k = 0 := by omega
      subst hk0
      have : p0 = 0 := by omega
      subst this
      omega
    have hdouble : 2 ^ k = 2 * 2 ^ (k - 1) := by
      have e : k = (k - 1) + 1 := by omega
      rw [e, pow_succ, Nat.add_sub_cancel]
      omega
    rw [or_two_pow_of_lt hlt1]
    refine ⟨by omega, (old_bucket_of_two_pow_add (by omega) hlt1).2.2.2, ?_⟩
    intro nb hnb hob
    obtain ⟨p, hp, _, rfl⟩ := hform nb hnb hob
    have := hbelow p hp hnb
    omega
  · rw [if_neg hgt]
    refine ⟨by omega, (old_bucket_of_two_pow_add hk hlt).2.2.2, ?_⟩
    intro nb hnb hob
    obtain ⟨p, hp, _, rfl⟩ := hform nb hnb hob
    have : 2 ^ p ≤ 2 ^ k := Nat.pow_le_pow_right (by decide) hp
    omega

/-! ## The contracts of the specification -/

/-- C1: on a page sorted ascending by hash key (duplicates allowed, possibly
empty) whose maximum offset plus one fits in an `OffsetNumber`, `_hash_binsearch`
returns, for every target and with fuel for at least `max_offset` iterations, an
offset `r` with `1 <= r <= max_offset + 1` such that every entry at an offset
below `r` has a key below the target and every entry at an offset from `r` on has
a key at least the target.  So `r` is the lowest offset whose key is at least the
target, it is `max_offset + 1` when all keys are below the target, and it is 1 on
an empty page. -/
theorem hash_binsearch_first_ge (fuel : Nat) (page : Page) (hash_value : Nat)
    (hs : PageSorted page) (hfit : PageGetMaxOffsetNumber page + 1 < OFFSET_MOD)
    (hfuel : PageGetMaxOffsetNumber page ≤ fuel) :
    ∃ r, _hash_binsearch fuel page hash_value = .ok r ∧
      1 ≤ r ∧ r ≤ PageGetMaxOffsetNumber page + 1 ∧
      (∀ off k, hashkeyAt page off = some k → off < r → k < hash_value) ∧
      (∀ off k, hashkeyAt page off = some k → r ≤ off → hash_value ≤ k) ∧
      (∀ off k, hashkeyAt page off = some k → hash_value ≤ k → r ≤ off) ∧
      ((∀ off k, hashkeyAt page off = some k → k < hash_value) →
        r = PageGetMaxOffsetNumber page + 1) ∧
      (page = [] → r = 1) := by
  obtain ⟨r, hr, h1, h2, h3, h4⟩ := binsearch_spec fuel page hash_value hs hfit hfuel
  refine ⟨r, hr, h1, h2, h3, h4, ?_, ?_, ?_⟩
  · intro off k hk hge
    by_contra hc
    have := h3 off k hk (by omega)
    omega
  · intro hall
    by_contra hc
    unfold PageGetMaxOffsetNumber at h2 hc
    obtain ⟨k, hk⟩ := hashkeyAt_exists h1 (show r ≤ page.length by omega)
    have := h4 r k hk (le_refl _)
    have := hall r k hk
    omega
  · intro hnil
    subst hnil
    unfold PageGetMaxOffsetNumber at h2
    simp at h2
    omega

/-- C1, at the page of the specification: the keys `[10, 20, 20, 30]` give 2 for
target 20, 4 for target 25, 5 for target 35 and 1 for target 5. -/
theorem hash_binsearch_first_ge_witness :
    PageSorted [10, 20, 20, 30] ∧
    PageGetMaxOffsetNumber [10, 20, 20, 30] + 1 < OFFSET_MOD ∧
    _hash_binsearch 4 [10, 20, 20, 30] 20 = .ok 2 ∧
    _hash_binsearch 4 [10, 20, 20, 30] 25 = .ok 4 ∧
    _hash_binsearch 4 [10, 20, 20, 30] 35 = .ok 5 ∧
    _hash_binsearch 4 [10, 20, 20, 30] 5 = .ok 1 ∧
    ∃ r, _hash_binsearch 4 [10, 20, 20, 30] 20 = .ok r ∧
      1 ≤ r ∧ r ≤ PageGetMaxOffsetNumber [10, 20, 20, 30] + 1 ∧
      (∀ off k, hashkeyAt [10, 20, 20, 30] off = some k → off < r → k < 20) ∧
      (∀ off k, hashkeyAt [10, 20, 20, 30] off = some k → r ≤ off → 20 ≤ k) ∧
      (∀ off k, hashkeyAt [10, 20, 20, 30] off = some k → 20 ≤ k → r ≤ off) ∧
      ((∀ off k, hashkeyAt [10, 20, 20, 30] off = some k → k < 20) →
        r = PageGetMaxOffsetNumber [10, 20, 20, 30] + 1) ∧
      (([10, 20, 20, 30] : Page) = [] → r = 1) :=
  ⟨by decide, by decide, by decide, by decide, by decide, by decide,
    hash_binsearch_first_ge 4 [10, 20, 20, 30] 20 (by decide) (by decide) (by decide)⟩

/-- C2: on a page sorted ascending by hash key (duplicates allowed, possibly
empty) whose maximum offset fits in an `OffsetNumber`, `_hash_binsearch_last`
returns, for every target and with fuel for at least `max_offset` iterations, an
offset `r` with `0 <= r <= max_offset` such that every entry at an offset up to
`r` has a key at most the target and every entry at an offset above `r` has a key
above the target.  So `r` is the highest offset whose key is at most the target,
and it is `FirstOffsetNumber - 1 = 0` when no such entry exists. -/
theorem hash_binsearch_last_le (fuel : Nat) (page : Page) (hash_value : Nat)
    (hs : PageSorted page) (hfit : PageGetMaxOffsetNumber page < OFFSET_MOD)
    (hfuel : PageGetMaxOffsetNumber page ≤ fuel) :
    ∃ r, _hash_binsearch_last fuel page hash_value = .ok r ∧
      0 ≤ r ∧ r ≤ PageGetMaxOffsetNumber page ∧
      (∀ off k, hashkeyAt page off = some k → off ≤ r → k ≤ hash_value) ∧
      (∀ off k, hashkeyAt page off = some k → r < off → hash_value < k) ∧
      (∀ off k, hashkeyAt page off = some k → k ≤ hash_value → off ≤ r) ∧
      ((∀ off k, hashkeyAt page off = some k → hash_value < k) →
        r = FirstOffsetNumber - 1) := by
  obtain ⟨r, hr, h2, h3, h4⟩ := binsearch_last_spec fuel page hash_value hs hfit hfuel
  refine ⟨r, hr, Nat.zero_le _, h2, h3, h4, ?_, ?_⟩
  · intro off k hk hle
    by_contra hc
    have := h4 off k hk (by omega)
    omega
  · intro hall
    unfold FirstOffsetNumber
    by_contra hc
    unfold PageGetMaxOffsetNumber at h2
    obtain ⟨k, hk⟩ := hashkeyAt_exists (show 1 ≤ r by omega) h2
    have := h3 r k hk (le_refl _)
    have := hall r k hk
    omega

/-- C2, at the page of the specification: the keys `[10, 20, 20, 30]` give 3 for
target 20 and 0 for target 5. -/
theorem hash_binsearch_last_le_witness :
    PageSorted [10, 20, 20, 30] ∧
    PageGetMaxOffsetNumber [10, 20, 20, 30] < OFFSET_MOD ∧
    _hash_binsearch_last 4 [10, 20, 20, 30] 20 = .ok 3 ∧
    _hash_binsearch_last 4 [10, 20, 20, 30] 5 = .ok 0 ∧
    ∃ r, _hash_binsearch_last 4 [10, 20, 20, 30] 20 = .ok r ∧
      0 ≤ r ∧ r ≤ PageGetMaxOffsetNumber [10, 20, 20, 30] ∧
      (∀ off k, hashkeyAt [10, 20, 20, 30] off = some k → off ≤ r → k ≤ 20) ∧
      (∀ off k, hashkeyAt [10, 20, 20, 30] off = some k → r < off → 20 < k) ∧
      (∀ off k, hashkeyAt [10, 20, 20, 30] off = some k → k ≤ 20 → off ≤ r) ∧
      ((∀ off k, hashkeyAt [10, 20, 20, 30] off = some k → 20 < k) →
        r = FirstOffsetNumber - 1) :=
  ⟨by decide, by decide, by decide, by decide,
    hash_binsearch_last_le 4 [10, 20, 20, 30] 20 (by decide) (by decide) (by decide)⟩

/-- C3, as stated, fails: with `hashkey = 7`, `maxbucket = 1`, `highmask = 7` and
`lowmask = 3 = highmask >> 1`, all of them 32-bit values, `_hash_hashkey2bucket`
returns 3, which exceeds `maxbucket`. -/
theorem hashkey2bucket_exceeds_maxbucket :
    7 < UINT32_MOD ∧ 1 < UINT32_MOD ∧ 3 < UINT32_MOD ∧ 3 = 7 >>> 1 ∧
    _hash_hashkey2bucket 7 1 7 3 = 3 ∧ ¬ (_hash_hashkey2bucket 7 1 7 3 ≤ 1) := by
  decide

/-- C3, amended: for all `hashkey`, `maxbucket`, `highmask` and `lowmask` with
`lowmask = highmask >> 1` and `lowmask <= maxbucket`, the bucket returned by
`_hash_hashkey2bucket` is at most `maxbucket`. -/
theorem hashkey2bucket_le_maxbucket (hashkey maxbucket highmask lowmask : Nat)
    (_hmask : lowmask = highmask >>> 1) (hgeo : lowmask ≤ maxbucket) :
    _hash_hashkey2bucket hashkey maxbucket highmask lowmask ≤ maxbucket := by
  unfold _hash_hashkey2bucket
  simp only
  split
  · exact le_trans Nat.and_le_right hgeo
  · omega

/-- C3, amended, at `hashkey = 7`, `maxbucket = 5`, `highmask = 7`, `lowmask = 3`:
the key falls back to bucket 3. -/
theorem hashkey2bucket_le_maxbucket_witness :
    3 = 7 >>> 1 ∧ 3 ≤ 5 ∧ _hash_hashkey2bucket 7 5 7 3 = 3 ∧
    _hash_hashkey2bucket 7 5 7 3 ≤ 5 :=
  ⟨by decide, by decide, by decide,
    hashkey2bucket_le_maxbucket 7 5 7 3 (by decide) (by decide)⟩

/-- C4: round trip between the new-bucket and the old-bucket derivations.  For
every `lowmask = 2 ^ k - 1` with `k <= 30`, every `maxbucket` and every
`old_bucket <= lowmask` that has been split, that is for which
`_hash_get_newbucket_from_oldbucket` returns a bucket other than `old_bucket`, the
old-bucket derivation of `_hash_get_oldblock_from_newbucket` applied to that
bucket is defined and gives back `old_bucket`. -/
theorem newbucket_oldbucket_roundtrip (k lowmask maxbucket old_bucket : Nat)
    (hk : k ≤ 30) (hlow : lowmask = 2 ^ k - 1) (hold : old_bucket ≤ lowmask)
    (hsplit : _hash_get_newbucket_from_oldbucket old_bucket lowmask maxbucket
      ≠ old_bucket) :
    _hash_get_oldblock_from_newbucket_old_bucket
      (_hash_get_newbucket_from_oldbucket old_bucket lowmask maxbucket)
      = some old_bucket := by
  subst hlow
  exact newbucket_roundtrip k maxbucket old_bucket (by omega) hold hsplit

/-- C4, at `lowmask = 3`, `maxbucket = 5`, `old_bucket = 1`: the new bucket is 5
and the old bucket of 5 is 1. -/
theorem newbucket_oldbucket_roundtrip_witness :
    (2 : Nat) ≤ 30 ∧ 3 = 2 ^ 2 - 1 ∧ 1 ≤ 3 ∧
    _hash_get_newbucket_from_oldbucket 1 3 5 = 5 ∧
    _hash_get_oldblock_from_newbucket_old_bucket
      (_hash_get_newbucket_from_oldbucket 1 3 5) = some 1 :=
  ⟨by decide, by decide, by decide, by decide,
    newbucket_oldbucket_roundtrip 2 3 5 1 (by decide) (by decide) (by decide)
      (by decide)⟩

/-- C5, as stated, fails: in the geometry `lowmask = 0 = 2 ^ 0 - 1`,
`maxbucket = 0` (so `lowmask <= maxbucket <= 2 * lowmask + 1`) and for
`old_bucket = 0 <= maxbucket`, `_hash_get_newbucket_from_oldbucket` returns 1,
which is above `maxbucket`. -/
theorem newbucket_exceeds_maxbucket :
    (0 : Nat) = 2 ^ 0 - 1 ∧ (0 : Nat) ≤ 0 ∧ (0 : Nat) ≤ 2 * 0 + 1 ∧
    _hash_get_newbucket_from_oldbucket 0 0 0 = 1 ∧
    ¬ (_hash_get_newbucket_from_oldbucket 0 0 0 ≤ 0) := by
  decide

/-- C5, amended: for every table geometry with `lowmask = 2 ^ k - 1`,
`lowmask <= maxbucket <= 2 * lowmask + 1` and `maxbucket >= 1` (a table of at
least two buckets), and every `old_bucket <= maxbucket`, the bucket returned by
`_hash_get_newbucket_from_oldbucket` is at most `maxbucket`. -/
theorem newbucket_exists (k lowmask maxbucket old_bucket : Nat)
    (hlow : lowmask = 2 ^ k - 1) (hmin : lowmask ≤ maxbucket)
    (hmax : maxbucket ≤ 2 * lowmask + 1) (htwo : 1 ≤ maxbucket)
    (hold : old_bucket ≤ maxbucket) :
    _hash_get_newbucket_from_oldbucket old_bucket lowmask maxbucket ≤ maxbucket := by
  subst hlow
  by_cases hk : 1 ≤ k
  · exact newbucket_le_maxbucket k maxbucket old_bucket hk hmin hmax hold
  · have hk0 : k = 0 := by omega
    subst hk0
    have hm : maxbucket = 1 := by
      simp at hmax
      omega
    subst hm
    have ho : old_bucket = 0 ∨ old_bucket = 1 := by omega
    rcases ho with h | h <;> subst h <;> decide

/-- C5, amended, at `lowmask = 3`, `maxbucket = 5`, `old_bucket = 2`: the first
candidate 6 does not exist and the result is 2. -/
theorem newbucket_exists_witness :
    (3 : Nat) = 2 ^ 2 - 1 ∧ (3 : Nat) ≤ 5 ∧ (5 : Nat) ≤ 2 * 3 + 1 ∧ (1 : Nat) ≤ 5 ∧
    (2 : Nat) ≤ 5 ∧ _hash_get_newbucket_from_oldbucket 2 3 5 = 2 ∧
    _hash_get_newbucket_from_oldbucket 2 3 5 ≤ 5 :=
  ⟨by decide, by decide, by decide, by decide, by decide, by decide,
    newbucket_exists 2 3 5 2 (by decide) (by decide) (by decide) (by decide)
      (by decide)⟩

/-- C6, as stated, fails: in the geometry `lowmask = 7 = 2 ^ 3 - 1`,
`maxbucket = 10` and for `old_bucket = 0`, bucket 1 exists and its old bucket is
0, yet `_hash_get_newbucket_from_oldbucket` returns 8, whose old bucket is 0 as
well: the result is not the lowest-numbered bucket split from `old_bucket`. -/
theorem newbucket_not_lowest :
    (7 : Nat) = 2 ^ 3 - 1 ∧ (7 : Nat) ≤ 10 ∧ (10 : Nat) ≤ 2 * 7 + 1 ∧
    (1 : Nat) ≤ 10 ∧ _hash_get_oldblock_from_newbucket_old_bucket 1 = some 0 ∧
    _hash_get_newbucket_from_oldbucket 0 7 10 = 8 ∧
    _hash_get_oldblock_from_newbucket_old_bucket 8 = some 0 ∧
    ¬ (_hash_get_newbucket_from_oldbucket 0 7 10 ≤ 1) := by
  decide

/-- C6, amended: for every geometry with `lowmask = 2 ^ k - 1`,
`lowmask <= maxbucket <= 2 * lowmask + 1` and `highmask = 2 * lowmask + 1` a
`uint32`, and every `old_bucket` for which at least one bucket `nb <= maxbucket`
exists whose old bucket is `old_bucket`, the result of
`_hash_get_newbucket_from_oldbucket` is the latest-created (highest-numbered)
such `nb`: it exists, its old bucket is `old_bucket`, and no existing bucket
split from `old_bucket` has a higher number. -/
theorem newbucket_latest_split (k lowmask maxbucket old_bucket : Nat)
    (hlow : lowmask = 2 ^ k - 1) (hmin : lowmask ≤ maxbucket)
    (hmax : maxbucket ≤ 2 * lowmask + 1) (hhigh : 2 * lowmask + 1 < UINT32_MOD)
    (hex : ∃ nb, nb ≤ maxbucket ∧
      _hash_get_oldblock_from_newbucket_old_bucket nb = some old_bucket) :
    _hash_get_newbucket_from_oldbucket old_bucket lowmask maxbucket ≤ maxbucket ∧
    _hash_get_oldblock_from_newbucket_old_bucket
      (_hash_get_newbucket_from_oldbucket old_bucket lowmask maxbucket)
      = some old_bucket ∧
    ∀ nb, nb ≤ maxbucket →
      _hash_get_oldblock_from_newbucket_old_bucket nb = some old_bucket →
      nb ≤ _hash_get_newbucket_from_oldbucket old_bucket lowmask maxbucket := by
  subst hlow
  have hk : k ≤ 31 := by
    have hpos : 0 < 2 ^ k := Nat.two_pow_pos k
    have h1 : 2 ^ k < 2 ^ 32 := by
      unfold UINT32_MOD at hhigh
      omega
    have := (Nat.pow_lt_pow_iff_right (by decide : 1 < 2)).mp h1
    omega
  exact newbucket_is_highest k maxbucket old_bucket hk hmin hmax hex

/-- C6, amended, at `lowmask = 7`, `maxbucket = 10`, `old_bucket = 0`: bucket 1
was split from bucket 0, and the result is bucket 8. -/
theorem newbucket_latest_split_witness :
    (7 : Nat) = 2 ^ 3 - 1 ∧ (7 : Nat) ≤ 10 ∧ (10 : Nat) ≤ 2 * 7 + 1 ∧
    2 * 7 + 1 < UINT32_MOD ∧
    _hash_get_oldblock_from_newbucket_old_bucket 1 = some 0 ∧
    _hash_get_newbucket_from_oldbucket 0 7 10 = 8 ∧
    (_hash_get_newbucket_from_oldbucket 0 7 10 ≤ 10 ∧
      _hash_get_oldblock_from_newbucket_old_bucket
        (_hash_get_newbucket_from_oldbucket 0 7 10) = some 0 ∧
      ∀ nb, nb ≤ 10 →
        _hash_get_oldblock_from_newbucket_old_bucket nb = some 0 →
        nb ≤ _hash_get_newbucket_from_oldbucket 0 7 10) :=
  ⟨by decide, by decide, by decide, by decide, by decide, by decide,
    newbucket_latest_split 3 7 10 0 (by decide) (by decide) (by decide) (by decide)
      ⟨1, by decide, by decide⟩⟩

/-- C7: for every 32-bit `new_bucket >= 1` the old bucket computed in
`_hash_get_oldblock_from_newbucket` is defined and strictly less than
`new_bucket`. -/
theorem old_bucket_lt_new_bucket (new_bucket : Nat) (hpos : 1 ≤ new_bucket)
    (h32 : new_bucket < UINT32_MOD) :
    ∃ old_bucket,
      _hash_get_oldblock_from_newbucket_old_bucket new_bucket = some old_bucket ∧
      old_bucket < new_bucket := by
  obtain ⟨p, x, hp, hx, rfl⟩ := exists_two_pow_add hpos h32
  have hpow : 0 < 2 ^ p := Nat.two_pow_pos p
  exact ⟨x, (old_bucket_of_two_pow_add hp hx).2.2.2, by omega⟩

/-- C7, at `new_bucket = 5`: the old bucket is 1. -/
theorem old_bucket_lt_new_bucket_witness :
    (1 : Nat) ≤ 5 ∧ 5 < UINT32_MOD ∧
    _hash_get_oldblock_from_newbucket_old_bucket 5 = some 1 ∧
    ∃ old_bucket,
      _hash_get_oldblock_from_newbucket_old_bucket 5 = some old_bucket ∧
      old_bucket < 5 :=
  ⟨by decide, by decide, by decide,
    old_bucket_lt_new_bucket 5 (by decide) (by decide)⟩

/-- C8, at the failing input `num = 2147483649 = 2 ^ 31 + 1`: whatever the fuel,
the loop of `_hash_log2` does not exit.  The limit runs through `1, 2, ..., 2 ^ 31`,
all below `num`; the next `limit <<= 1` wraps to 0 and the limit stays 0. -/
theorem hash_log2_never_returns_above_two_pow_31 (fuel : Nat) :
    _hash_log2 fuel 2147483649 = none := by
  unfold _hash_log2
  have h := hash_log2_loop_diverges 2147483649 (by decide) fuel 0 0 (by decide)
  simpa using h

/-- C9: `_hash_log2(0) = 0`, `_hash_log2(1) = 0`, `_hash_log2(2) = 1` and
`_hash_log2(1025) = 11`, with any fuel of at least 11 iterations. -/
theorem hash_log2_values (extra : Nat) :
    _hash_log2 (11 + extra) 0 = some 0 ∧ _hash_log2 (11 + extra) 1 = some 0 ∧
    _hash_log2 (11 + extra) 2 = some 1 ∧ _hash_log2 (11 + extra) 1025 = some 11 := by
  unfold _hash_log2
  exact ⟨hash_log2_loop_mono 0 extra 11 1 0 0 (by decide),
    hash_log2_loop_mono 1 extra 11 1 0 0 (by decide),
    hash_log2_loop_mono 2 extra 11 1 0 1 (by decide),
    hash_log2_loop_mono 1025 extra 11 1 0 11 (by decide)⟩

/-- C10: tie handling of the two searches taken together.  On a page sorted
ascending by hash key whose maximum offset plus one fits in an `OffsetNumber`,
and with fuel for at least `max_offset` iterations, both searches return, and the
entries whose key equals the target are exactly those at the offsets from the
result of `_hash_binsearch` to the result of `_hash_binsearch_last` inclusive.
When the target occurs, `_hash_binsearch` returns the offset of its earliest
duplicate and `_hash_binsearch_last` that of its latest; when it does not occur,
the result of `_hash_binsearch_last` is that of `_hash_binsearch` minus one. -/
theorem hash_binsearch_ties (fuel : Nat) (page : Page) (hash_value : Nat)
    (hs : PageSorted page) (hfit : PageGetMaxOffsetNumber page + 1 < OFFSET_MOD)
    (hfuel : PageGetMaxOffsetNumber page ≤ fuel) :
    ∃ first last, _hash_binsearch fuel page hash_value = .ok first ∧
      _hash_binsearch_last fuel page hash_value = .ok last ∧
      (∀ off k, hashkeyAt page off = some k →
        (k = hash_value ↔ first ≤ off ∧ off ≤ last)) ∧
      ((∃ off, hashkeyAt page off = some hash_value) →
        hashkeyAt page first = some hash_value ∧ hashkeyAt page last = some hash_value ∧
        ∀ off, hashkeyAt page off = some hash_value → first ≤ off ∧ off ≤ last) ∧
      ((¬ ∃ off, hashkeyAt page off = some hash_value) →
        1 ≤ first ∧ last = first - 1) := by
  obtain ⟨first, last, h1, h2, h3, h4, h5⟩ :=
    binsearch_ties_spec fuel page hash_value hs hfit hfuel
  refine ⟨first, last, h1, h2, h3, h4, ?_⟩
  intro hno
  have := h5 hno
  omega

/-- C10, at the page `[10, 20, 20, 30]`: target 20 occupies the offsets 2 to 3,
and target 25, which does not occur, gives 4 and 3. -/
theorem hash_binsearch_ties_witness :
    PageSorted [10, 20, 20, 30] ∧
    PageGetMaxOffsetNumber [10, 20, 20, 30] + 1 < OFFSET_MOD ∧
    _hash_binsearch 4 [10, 20, 20, 30] 20 = .ok 2 ∧
    _hash_binsearch_last 4 [10, 20, 20, 30] 20 = .ok 3 ∧
    _hash_binsearch 4 [10, 20, 20, 30] 25 = .ok 4 ∧
    _hash_binsearch_last 4 [10, 20, 20, 30] 25 = .ok 3 ∧
    ∃ first last, _hash_binsearch 4 [10, 20, 20, 30] 20 = .ok first ∧
      _hash_binsearch_last 4 [10, 20, 20, 30] 20 = .ok last ∧
      (∀ off k, hashkeyAt [10, 20, 20, 30] off = some k →
        (k = 20 ↔ first ≤ off ∧ off ≤ last)) ∧
      ((∃ off, hashkeyAt [10, 20, 20, 30] off = some 20) →
        hashkeyAt [10, 20, 20, 30] first = some 20 ∧
        hashkeyAt [10, 20, 20, 30] last = some 20 ∧
        ∀ off, hashkeyAt [10, 20, 20, 30] off = some 20 → first ≤ off ∧ off ≤ last) ∧
      ((¬ ∃ off, hashkeyAt [10, 20, 20, 30] off = some 20) →
        1 ≤ first ∧ last = first - 1) :=
  ⟨by decide, by decide, by decide, by decide, by decide, by decide,
    hash_binsearch_ties 4 [10, 20, 20, 30] 20 (by decide) (by decide) (by decide)⟩

/-! ## Searches on pages in any order -/

/-- The loop of `_hash_binsearch` stays inside the page and exits, whatever the
order of the keys. -/
theorem binsearch_loop_safe (page : Page) (hash_value : Nat)
    (hfit : page.length + 1 < OFFSET_MOD) :
    ∀ (fuel upper lower : Nat), 1 ≤ lower → lower ≤ upper → upper ≤ page.length + 1 →
      upper - lower ≤ fuel →
      ∃ r, _hash_binsearch_loop page hash_value fuel upper lower = .ok r ∧
        lower ≤ r ∧ r ≤ upper := by
  intro fuel
  induction fuel with
  | zero =>
    intro upper lower h1 hlu hup hfuel
    have heq : upper = lower := by omega
    subst heq
    exact ⟨upper, by simp [_hash_binsearch_loop], le_refl _, le_refl _⟩
  | succ fuel ih =>
    intro upper lower h1 hlu hup hfuel
    unfold _hash_binsearch_loop
    by_cases hgt : upper > lower
    · rw [if_pos hgt]
      have hoff : toOffsetNumber ((upper + lower) / 2) = (upper + lower) / 2 := by
        unfold toOffsetNumber OFFSET_MOD at *
        exact Nat.mod_eq_of_lt (by omega)
      simp only [hoff]
      obtain ⟨key, hkey⟩ := hashkeyAt_exists (show 1 ≤ (upper + lower) / 2 by omega)
        (show (upper + lower) / 2 ≤ page.length by omega)
      rw [hkey]
      simp only
      by_cases hlt : key < hash_value
      · rw [if_pos hlt]
        have hnext : toOffsetNumber ((upper + lower) / 2 + 1) = (upper + lower) / 2 + 1 := by
          unfold toOffsetNumber OFFSET_MOD at *
          exact Nat.mod_eq_of_lt (by omega)
        rw [hnext]
        obtain ⟨r, hr, hr1, hr2⟩ :=
          ih upper ((upper + lower) / 2 + 1) (by omega) (by omega) hup (by omega)
        exact ⟨r, hr, by omega, hr2⟩
      · rw [if_neg hlt]
        obtain ⟨r, hr, hr1, hr2⟩ :=
          ih ((upper + lower) / 2) lower h1 (by omega) (by omega) (by omega)
        exact ⟨r, hr, hr1, by omega⟩
    · rw [if_neg hgt]
      have heq : upper = lower := by omega
      subst heq
      exact ⟨upper, rfl, le_refl _, le_refl _⟩

/-- The loop of `_hash_binsearch_last` stays inside the page and exits, whatever
the order of the keys. -/
theorem binsearch_last_loop_safe (page : Page) (hash_value : Nat)
    (hfit : page.length < OFFSET_MOD) :
    ∀ (fuel upper lower : Nat), lower ≤ upper → upper ≤ page.length →
      upper - lower ≤ fuel →
      ∃ r, _hash_binsearch_last_loop page hash_value fuel upper lower = .ok r ∧
        lower ≤ r ∧ r ≤ upper := by
  intro fuel
  induction fuel with
  | zero =>
    intro upper lower hlu hup hfuel
    have heq : upper = lower := by omega
    subst heq
    exact ⟨upper, by simp [_hash_binsearch_last_loop], le_refl _, le_refl _⟩
  | succ fuel ih =>
    intro upper lower hlu hup hfuel
    unfold _hash_binsearch_last_loop
    by_cases hgt : upper > lower
    · rw [if_pos hgt]
      have hoff : toOffsetNumber ((upper + lower + 1) / 2) = (upper + lower + 1) / 2 := by
        unfold toOffsetNumber OFFSET_MOD at *
        exact Nat.mod_eq_of_lt (by omega)
      simp only [hoff]
      obtain ⟨key, hkey⟩ := hashkeyAt_exists (show 1 ≤ (upper + lower + 1) / 2 by omega)
        (show (upper + lower + 1) / 2 ≤ page.length by omega)
      rw [hkey]
      simp only
      by_cases hlt : key > hash_value
      · rw [if_pos hlt]
        have hprev : toOffsetNumber ((upper + lower + 1) / 2 + OFFSET_MOD - 1)
            = (upper + lower + 1) / 2 - 1 := by
          unfold toOffsetNumber OFFSET_MOD at *
          omega
        rw [hprev]
        obtain ⟨r, hr, hr1, hr2⟩ :=
          ih ((upper + lower + 1) / 2 - 1) lower (by omega) (by omega) (by omega)
        exact ⟨r, hr, hr1, by omega⟩
      · rw [if_neg hlt]
        obtain ⟨r, hr, hr1, hr2⟩ :=
          ih upper ((upper + lower + 1) / 2) (by omega) hup (by omega)
        exact ⟨r, hr, by omega, hr2⟩
    · rw [if_neg hgt]
      have heq : upper = lower := by omega
      subst heq
      exact ⟨upper, rfl, le_refl _, le_refl _⟩

/-- The item lookup fails exactly outside the offsets `1..max_offset`. -/
theorem hashkeyAt_none_iff (page : Page) (off : Nat) :
    hashkeyAt page off = none ↔ ¬ (1 ≤ off ∧ off ≤ PageGetMaxOffsetNumber page) := by
  unfold PageGetMaxOffsetNumber
  constructor
  · intro h hv
    obtain ⟨k, hk⟩ := hashkeyAt_exists hv.1 hv.2
    rw [h] at hk
    exact absurd hk (by simp)
  · intro h
    cases hk : hashkeyAt page off with
    | none => rfl
    | some k => exact absurd (hashkeyAt_valid hk) h

/-! ## Further lemmas on bucket arithmetic -/

theorem hashkey2bucket_le_of_lowmask_le (hashkey maxbucket highmask lowmask : Nat)
    (h : lowmask ≤ maxbucket) :
    _hash_hashkey2bucket hashkey maxbucket highmask lowmask ≤ maxbucket := by
  unfold _hash_hashkey2bucket
  simp only
  split
  · exact le_trans Nat.and_le_right h
  · omega

/-- The two cases of `_hash_hashkey2bucket` for masks `2 ^ (k + 1) - 1` and
`2 ^ k - 1`, in terms of remainders. -/
theorem hashkey2bucket_two_pow (hashkey maxbucket k : Nat) :
    _hash_hashkey2bucket hashkey maxbucket (2 ^ (k + 1) - 1) (2 ^ k - 1) =
      if hashkey % 2 ^ (k + 1) > maxbucket then hashkey % 2 ^ k
      else hashkey % 2 ^ (k + 1) := by
  unfold _hash_hashkey2bucket
  simp only [Nat.and_pow_two_sub_one_eq_mod]
  rw [Nat.mod_mod_of_dvd hashkey (Nat.pow_dvd_pow 2 (Nat.le_succ k))]

theorem log2_two_pow_add {p x : Nat} (hx : x < 2 ^ p) : Nat.log2 (2 ^ p + x) = p := by
  have hpos : 0 < 2 ^ p := Nat.two_pow_pos p
  have hne : 2 ^ p + x ≠ 0 := by omega
  have h1 : Nat.log2 (2 ^ p + x) < p + 1 :=
    (Nat.log2_lt hne).mpr (by rw [pow_succ]; omega)
  have h2 : ¬ Nat.log2 (2 ^ p + x) < p := by
    intro h
    have := (Nat.log2_lt hne).mp h
    omega
  omega

/-- The loop of `_hash_log2` exits exactly for `num <= 2 ^ 31`. -/
theorem hash_log2_returns_iff (num : Nat) :
    (∃ fuel r, _hash_log2 fuel num = some r) ↔ num ≤ 2 ^ 31 := by
  constructor
  · rintro ⟨fuel, r, h⟩
    by_contra hc
    have hd := hash_log2_loop_diverges num (by omega) fuel 0 0 (by decide)
    unfold _hash_log2 at h
    rw [pow_zero] at hd
    rw [hd] at h
    exact absurd h (by simp)
  · intro h
    obtain ⟨r, hr, _⟩ := hash_log2_spec 31 num h (le_refl _)
    exact ⟨31, r, hr⟩

/-! ## The contracts of the specification, continued -/

/-- C11: for every index, whatever its hash procedure, and all arrays: if
`user_isnull[0]` is true, `_hash_convert_tuple` returns false and leaves
`index_values` and `index_isnull` unchanged; otherwise it returns true, sets
`index_values[0]` to exactly the key that `_hash_datum2hashkey(index, user_values[0])`
returns, sets `index_isnull[0]` to false, and leaves the other elements alone. -/
theorem hash_convert_tuple_spec (index : Relation) (user_values : Nat → Datum)
    (user_isnull : Nat → Bool) (index_values : Nat → Datum)
    (index_isnull : Nat → Bool) :
    (user_isnull 0 = true →
      (_hash_convert_tuple index user_values user_isnull index_values
          index_isnull).result = false ∧
      (_hash_convert_tuple index user_values user_isnull index_values
          index_isnull).index_values = index_values ∧
      (_hash_convert_tuple index user_values user_isnull index_values
          index_isnull).index_isnull = index_isnull) ∧
    (user_isnull 0 = false →
      (_hash_convert_tuple index user_values user_isnull index_values
          index_isnull).result = true ∧
      (_hash_convert_tuple index user_values user_isnull index_values
          index_isnull).index_values 0 = _hash_datum2hashkey index (user_values 0) ∧
      (_hash_convert_tuple index user_values user_isnull index_values
          index_isnull).index_isnull 0 = false ∧
      ∀ i, i ≠ 0 →
        (_hash_convert_tuple index user_values user_isnull index_values
            index_isnull).index_values i = index_values i ∧
        (_hash_convert_tuple index user_values user_isnull index_values
            index_isnull).index_isnull i = index_isnull i) := by
  constructor
  · intro h
    unfold _hash_convert_tuple
    rw [h]
    exact ⟨rfl, rfl, rfl⟩
  · intro h
    unfold _hash_convert_tuple
    rw [h]
    refine ⟨rfl, ?_, ?_, ?_⟩
    · simp [UInt32GetDatum]
    · simp
    · intro i hi
      simp [hi]

/-- C11, on the sample index: a null value is not converted and the arrays stay
as they were; the value 7 is converted to the key 1401181243, which is what
`_hash_datum2hashkey` returns for 7. -/
theorem hash_convert_tuple_spec_witness :
    (_hash_convert_tuple sample_index (fun _ => 7) (fun _ => true) (fun _ => 0)
        (fun _ => true)).result = false ∧
    (_hash_convert_tuple sample_index (fun _ => 7) (fun _ => true) (fun _ => 0)
        (fun _ => true)).index_values = (fun _ => 0) ∧
    (_hash_convert_tuple sample_index (fun _ => 7) (fun _ => true) (fun _ => 0)
        (fun _ => true)).index_isnull = (fun _ => true) ∧
    _hash_datum2hashkey sample_index 7 = 1401181243 ∧
    (_hash_convert_tuple sample_index (fun _ => 7) (fun _ => false) (fun _ => 0)
        (fun _ => true)).result = true ∧
    (_hash_convert_tuple sample_index (fun _ => 7) (fun _ => false) (fun _ => 0)
        (fun _ => true)).index_values 0 = 1401181243 ∧
    (_hash_convert_tuple sample_index (fun _ => 7) (fun _ => false) (fun _ => 0)
        (fun _ => true)).index_isnull 0 = false :=
  have hnull := (hash_convert_tuple_spec sample_index (fun _ => 7) (fun _ => true)
    (fun _ => 0) (fun _ => true)).1 rfl
  have hval := (hash_convert_tuple_spec sample_index (fun _ => 7) (fun _ => false)
    (fun _ => 0) (fun _ => true)).2 rfl
  ⟨hnull.1, hnull.2.1, hnull.2.2, by decide, hval.1, by decide, hval.2.2.1⟩

/-- C12: `_hash_datum2hashkey_type` fails if and only if the operator-family
lookup yields no valid hash procedure for `(keytype, keytype)`.  With an
unregistered type it raises the missing-support error and returns no key; with a
registered type it returns the low 32 bits of the result of that procedure on
the value under the collation of the index. -/
theorem hash_datum2hashkey_type_spec (rel : Relation) (key : Datum) (keytype : Nat) :
    ((∃ e, _hash_datum2hashkey_type rel key keytype = .error e) ↔
      rel.get_opfamily_proc keytype = InvalidOid) ∧
    (rel.get_opfamily_proc keytype = InvalidOid →
      _hash_datum2hashkey_type rel key keytype
        = .error (.missing_support_function keytype) ∧
      ∀ k, _hash_datum2hashkey_type rel key keytype ≠ .ok k) ∧
    (rel.get_opfamily_proc keytype ≠ InvalidOid →
      _hash_datum2hashkey_type rel key keytype =
        .ok (rel.OidFunctionCall1Coll (rel.get_opfamily_proc keytype)
          rel.rd_indcollation key % 2 ^ 32)) := by
  have hinv : rel.get_opfamily_proc keytype = InvalidOid →
      _hash_datum2hashkey_type rel key keytype
        = .error (.missing_support_function keytype) := by
    intro h
    unfold _hash_datum2hashkey_type RegProcedureIsValid
    simp [h]
  have hval : rel.get_opfamily_proc keytype ≠ InvalidOid →
      _hash_datum2hashkey_type rel key keytype =
        .ok (rel.OidFunctionCall1Coll (rel.get_opfamily_proc keytype)
          rel.rd_indcollation key % 2 ^ 32) := by
    intro h
    unfold _hash_datum2hashkey_type RegProcedureIsValid DatumGetUInt32 toUint32 UINT32_MOD
    simp [h]
  refine ⟨⟨?_, fun h => ⟨_, hinv h⟩⟩, fun h => ⟨hinv h, ?_⟩, hval⟩
  · rintro ⟨e, he⟩
    by_contra hc
    rw [hval hc] at he
    exact absurd he (by simp)
  · intro k hk
    rw [hinv h] at hk
    exact absurd hk (by simp)

/-- C12, on the sample index: type 25 has no hash procedure and the call fails
with the missing-support error; type 23 has procedure 400 and the key of the
value 7 is 284021. -/
theorem hash_datum2hashkey_type_spec_witness :
    sample_index.get_opfamily_proc 25 = InvalidOid ∧
    _hash_datum2hashkey_type sample_index 7 25 = .error (.missing_support_function 25) ∧
    sample_index.get_opfamily_proc 23 ≠ InvalidOid ∧
    _hash_datum2hashkey_type sample_index 7 23 = .ok 284021 ∧
    ((∃ e, _hash_datum2hashkey_type sample_index 7 25 = .error e) ↔
      sample_index.get_opfamily_proc 25 = InvalidOid) :=
  ⟨by decide, ((hash_datum2hashkey_type_spec sample_index 7 25).2.1 (by decide)).1,
    by decide, rfl, (hash_datum2hashkey_type_spec sample_index 7 25).1⟩

/-- C13: the searches stay inside the page whatever the order of its keys.  For
every page whose maximum offset plus one fits in an `OffsetNumber`, every target
and fuel for at least `max_offset` iterations, the run of `_hash_binsearch` ends
with a result in `1..max_offset + 1` and the run of `_hash_binsearch_last` with a
result in `0..max_offset`: neither run stops at an invalid offset, which is what
a probe outside `1..max_offset` gives, and neither runs out of fuel. -/
theorem hash_binsearch_stays_in_page (fuel : Nat) (page : Page) (hash_value : Nat)
    (hfit : PageGetMaxOffsetNumber page + 1 < OFFSET_MOD)
    (hfuel : PageGetMaxOffsetNumber page ≤ fuel) :
    (∃ r, _hash_binsearch fuel page hash_value = .ok r ∧
      1 ≤ r ∧ r ≤ PageGetMaxOffsetNumber page + 1) ∧
    (∃ r, _hash_binsearch_last fuel page hash_value = .ok r ∧
      0 ≤ r ∧ r ≤ PageGetMaxOffsetNumber page) ∧
    (∀ off, _hash_binsearch fuel page hash_value ≠ .invalidOffset off ∧
      _hash_binsearch_last fuel page hash_value ≠ .invalidOffset off) ∧
    _hash_binsearch fuel page hash_value ≠ .outOfFuel ∧
    _hash_binsearch_last fuel page hash_value ≠ .outOfFuel ∧
    (∀ off, hashkeyAt page off = none ↔
      ¬ (1 ≤ off ∧ off ≤ PageGetMaxOffsetNumber page)) := by
  have hfirst : ∃ r, _hash_binsearch fuel page hash_value = .ok r ∧
      1 ≤ r ∧ r ≤ PageGetMaxOffsetNumber page + 1 := by
    unfold PageGetMaxOffsetNumber at *
    have hup : toOffsetNumber (page.length + 1) = page.length + 1 := by
      unfold toOffsetNumber
      exact Nat.mod_eq_of_lt hfit
    unfold _hash_binsearch PageGetMaxOffsetNumber FirstOffsetNumber
    rw [hup]
    exact binsearch_loop_safe page hash_value hfit fuel (page.length + 1) 1 (le_refl _)
      (by omega) (le_refl _) (by omega)
  have hlast : ∃ r, _hash_binsearch_last fuel page hash_value = .ok r ∧
      0 ≤ r ∧ r ≤ PageGetMaxOffsetNumber page := by
    unfold PageGetMaxOffsetNumber at *
    have hup : toOffsetNumber page.length = page.length := by
      unfold toOffsetNumber
      exact Nat.mod_eq_of_lt (by omega)
    have hlo : toOffsetNumber (FirstOffsetNumber + OFFSET_MOD - 1) = 0 := by
      unfold toOffsetNumber FirstOffsetNumber OFFSET_MOD
      rfl
    unfold _hash_binsearch_last PageGetMaxOffsetNumber
    rw [hup, hlo]
    exact binsearch_last_loop_safe page hash_value (by omega) fuel page.length 0
      (Nat.zero_le _) (le_refl _) (by omega)
  have hfirst2 := hfirst
  have hlast2 := hlast
  obtain ⟨r1, h1, _⟩ := hfirst2
  obtain ⟨r2, h2, _⟩ := hlast2
  refine ⟨hfirst, hlast, ?_, ?_, ?_, hashkeyAt_none_iff page⟩
  · intro off
    rw [h1, h2]
    exact ⟨by simp, by simp⟩
  · rw [h1]; simp
  · rw [h2]; simp

/-- C13, on the unsorted page `[30, 10, 20]` with target 30: the searches return
the offsets 4 and 3, which are not where the key 30 is but lie inside their
ranges. -/
theorem hash_binsearch_stays_in_page_witness :
    ¬ PageSorted [30, 10, 20] ∧
    PageGetMaxOffsetNumber [30, 10, 20] + 1 < OFFSET_MOD ∧
    _hash_binsearch 3 [30, 10, 20] 30 = .ok 4 ∧
    _hash_binsearch_last 3 [30, 10, 20] 30 = .ok 3 ∧
    (∃ r, _hash_binsearch 3 [30, 10, 20] 30 = .ok r ∧
      1 ≤ r ∧ r ≤ PageGetMaxOffsetNumber [30, 10, 20] + 1) :=
  ⟨by decide, by decide, by decide, by decide,
    (hash_binsearch_stays_in_page 3 [30, 10, 20] 30 (by decide) (by decide)).1⟩

/-- C14, at the failing input `num = 4294967295`: whatever the fuel, the loop of
`_hash_log2` does not exit.  More precisely the loop exits, for some amount of
fuel, exactly for the inputs `num <= 2 ^ 31`. -/
theorem hash_log2_terminates_iff :
    (∀ fuel, _hash_log2 fuel 4294967295 = none) ∧
    ∀ num, (∃ fuel r, _hash_log2 fuel num = some r) ↔ num ≤ 2 ^ 31 := by
  refine ⟨?_, hash_log2_returns_iff⟩
  intro fuel
  unfold _hash_log2
  have h := hash_log2_loop_diverges 4294967295 (by decide) fuel 0 0 (by decide)
  simpa using h

/-- C15: table-geometry invariant tying `_hash_log2` to `_hash_hashkey2bucket`.
For every `maxbucket < 2 ^ 31` and every hash key, `_hash_log2(maxbucket + 1)`
returns some `r` (with fuel for at least 31 iterations), and with
`highmask = 2 ^ r - 1` and `lowmask = highmask >> 1` the bucket of the key is at
most `maxbucket`. -/
theorem hash_geometry_bucket_le (fuel maxbucket hashkey : Nat)
    (hmax : maxbucket < 2 ^ 31) (hfuel : 31 ≤ fuel) :
    ∃ r, _hash_log2 fuel (maxbucket + 1) = some r ∧
      _hash_hashkey2bucket hashkey maxbucket (2 ^ r - 1) ((2 ^ r - 1) >>> 1)
        ≤ maxbucket := by
  obtain ⟨r, hr, _, _, hleast⟩ := hash_log2_spec fuel (maxbucket + 1) (by omega) hfuel
  refine ⟨r, hr, hashkey2bucket_le_of_lowmask_le _ _ _ _ ?_⟩
  rw [two_pow_sub_one_shiftRight]
  by_cases h0 : r = 0
  · subst h0
    simp
  · have := hleast (r - 1) (by omega)
    omega

/-- C15, at `maxbucket = 5` and `hashkey = 7`: `_hash_log2(6) = 3`, the masks are
7 and 3, and the key falls back to bucket 3. -/
theorem hash_geometry_bucket_le_witness :
    (5 : Nat) < 2 ^ 31 ∧ _hash_log2 31 (5 + 1) = some 3 ∧
    _hash_hashkey2bucket 7 5 (2 ^ 3 - 1) ((2 ^ 3 - 1) >>> 1) = 3 ∧
    ∃ r, _hash_log2 31 (5 + 1) = some r ∧
      _hash_hashkey2bucket 7 5 (2 ^ r - 1) ((2 ^ r - 1) >>> 1) ≤ 5 :=
  ⟨by decide, by decide, by decide,
    hash_geometry_bucket_le 31 5 7 (by decide) (by decide)⟩

/-- C16: the old-bucket derivation clears exactly the most significant set bit.
For every 32-bit `new_bucket >= 1`, with `p = floor(log2(new_bucket))`, that is
`2 ^ p <= new_bucket < 2 ^ (p + 1)`, the mask computed in
`_hash_get_oldblock_from_newbucket` is `2 ^ p - 1` and the old bucket is
`new_bucket & mask = new_bucket - 2 ^ p`. -/
theorem old_bucket_clears_msb (new_bucket : Nat) (hpos : 1 ≤ new_bucket)
    (h32 : new_bucket < UINT32_MOD) :
    2 ^ Nat.log2 new_bucket ≤ new_bucket ∧
    new_bucket < 2 ^ (Nat.log2 new_bucket + 1) ∧
    _hash_get_oldblock_from_newbucket_mask new_bucket
      = some (2 ^ Nat.log2 new_bucket - 1) ∧
    _hash_get_oldblock_from_newbucket_old_bucket new_bucket
      = some (new_bucket &&& (2 ^ Nat.log2 new_bucket - 1)) ∧
    new_bucket &&& (2 ^ Nat.log2 new_bucket - 1)
      = new_bucket - 2 ^ Nat.log2 new_bucket := by
  obtain ⟨p, x, hp, hx, rfl⟩ := exists_two_pow_add hpos h32
  obtain ⟨_, _, hmask, hold⟩ := old_bucket_of_two_pow_add hp hx
  rw [log2_two_pow_add hx]
  have hand : (2 ^ p + x) &&& (2 ^ p - 1) = x := by
    rw [Nat.and_pow_two_sub_one_eq_mod, Nat.add_mod_left, Nat.mod_eq_of_lt hx]
  refine ⟨by omega, by rw [pow_succ]; omega, hmask, ?_, ?_⟩
  · rw [hold, hand]
  · rw [hand]
    omega

/-- C16, at `new_bucket = 5`: the mask is 3 and the old bucket is 1. -/
theorem old_bucket_clears_msb_witness :
    (1 : Nat) ≤ 5 ∧ 5 < UINT32_MOD ∧
    _hash_get_oldblock_from_newbucket_mask 5 = some 3 ∧
    _hash_get_oldblock_from_newbucket_old_bucket 5 = some 1 ∧
    _hash_get_oldblock_from_newbucket_mask 5 = some (2 ^ Nat.log2 5 - 1) :=
  ⟨by decide, by decide, by decide, by decide,
    (old_bucket_clears_msb 5 (by decide) (by decide)).2.2.1⟩

/-- C17: for every 32-bit `new_bucket >= 1` the shift count
`fls(new_bucket) - 1` lies in `0..31`, so `((uint32) 1) << (fls(new_bucket) - 1)`
is a valid shift whose value fits in a `uint32` and the mask is defined; the
count is outside `0..31` only for `new_bucket = 0`, where it is `-1`. -/
theorem oldbucket_shift_in_range (new_bucket : Nat) (h32 : new_bucket < UINT32_MOD) :
    (1 ≤ new_bucket →
      0 ≤ oldbucket_shift new_bucket ∧ oldbucket_shift new_bucket ≤ 31 ∧
      1 <<< (oldbucket_shift new_bucket).toNat < UINT32_MOD ∧
      (_hash_get_oldblock_from_newbucket_mask new_bucket).isSome = true) ∧
    (¬ (0 ≤ oldbucket_shift new_bucket ∧ oldbucket_shift new_bucket ≤ 31) →
      new_bucket = 0) ∧
    oldbucket_shift 0 = -1 := by
  have hin : 1 ≤ new_bucket →
      0 ≤ oldbucket_shift new_bucket ∧ oldbucket_shift new_bucket ≤ 31 ∧
      1 <<< (oldbucket_shift new_bucket).toNat < UINT32_MOD ∧
      (_hash_get_oldblock_from_newbucket_mask new_bucket).isSome = true := by
    intro hpos
    obtain ⟨p, x, hp, hx, rfl⟩ := exists_two_pow_add hpos h32
    obtain ⟨_, hshift, hmask, _⟩ := old_bucket_of_two_pow_add hp hx
    rw [hshift, hmask]
    refine ⟨by omega, by omega, ?_, rfl⟩
    rw [Int.toNat_ofNat, Nat.one_shiftLeft]
    have : 2 ^ p ≤ 2 ^ 31 := Nat.pow_le_pow_right (by decide) hp
    unfold UINT32_MOD
    omega
  refine ⟨hin, ?_, by decide⟩
  intro hout
  by_contra hne
  have h := hin (by omega)
  exact hout ⟨h.1, h.2.1⟩

/-- C17, at `new_bucket = 5`: the shift count is 2. -/
theorem oldbucket_shift_in_range_witness :
    5 < UINT32_MOD ∧ oldbucket_shift 5 = 2 ∧
    (0 ≤ oldbucket_shift 5 ∧ oldbucket_shift 5 ≤ 31 ∧
      1 <<< (oldbucket_shift 5).toNat < UINT32_MOD ∧
      (_hash_get_oldblock_from_newbucket_mask 5).isSome = true) :=
  ⟨by decide, by decide, (oldbucket_shift_in_range 5 (by decide)).1 (by decide)⟩

/-- C18: a split only moves keys from the old bucket to the new bucket.  For every
`k <= 30`, `lowmask = 2 ^ k - 1`, `highmask = 2 ^ (k + 1) - 1`, every `m` with
`lowmask < m <= highmask` and every hash key: if the key maps to `m` once bucket
`m` exists, it mapped to the old bucket of `m` before; otherwise it maps to the
same bucket before and after. -/
theorem split_moves_keys_to_new_bucket (k lowmask highmask m hashkey : Nat)
    (hk : k ≤ 30) (hlow : lowmask = 2 ^ k - 1) (hhigh : highmask = 2 ^ (k + 1) - 1)
    (hm1 : lowmask < m) (hm2 : m ≤ highmask) :
    (_hash_hashkey2bucket hashkey m highmask lowmask = m →
      _hash_get_oldblock_from_newbucket_old_bucket m
        = some (_hash_hashkey2bucket hashkey (m - 1) highmask lowmask)) ∧
    (_hash_hashkey2bucket hashkey m highmask lowmask ≠ m →
      _hash_hashkey2bucket hashkey (m - 1) highmask lowmask
        = _hash_hashkey2bucket hashkey m highmask lowmask) := by
  subst hlow hhigh
  have hpos : 0 < 2 ^ k := Nat.two_pow_pos k
  have hsucc : 2 ^ (k + 1) = 2 * 2 ^ k := by rw [pow_succ]; omega
  have hc : hashkey % 2 ^ k < 2 ^ k := Nat.mod_lt _ hpos
  have hbc : hashkey % 2 ^ (k + 1) % 2 ^ k = hashkey % 2 ^ k :=
    Nat.mod_mod_of_dvd hashkey (Nat.pow_dvd_pow 2 (Nat.le_succ k))
  rw [hashkey2bucket_two_pow, hashkey2bucket_two_pow]
  obtain ⟨x, rfl⟩ : ∃ x, m = 2 ^ k + x := ⟨m - 2 ^ k, by omega⟩
  have hx : x < 2 ^ k := by omega
  have hold := (old_bucket_of_two_pow_add (show k ≤ 31 by omega) hx).2.2.2
  constructor
  · intro hafter
    by_cases hgt : hashkey % 2 ^ (k + 1) > 2 ^ k + x
    · rw [if_pos hgt] at hafter
      omega
    · rw [if_neg hgt] at hafter
      rw [if_pos (by omega), hold, ← hbc, hafter, Nat.add_mod_left, Nat.mod_eq_of_lt hx]
  · intro hafter
    by_cases hgt : hashkey % 2 ^ (k + 1) > 2 ^ k + x
    · rw [if_pos hgt, if_pos (by omega)]
    · rw [if_neg hgt] at hafter ⊢
      rw [if_neg (by omega)]

/-- C18, at `lowmask = 3`, `highmask = 7`, `m = 5`: the key 13 maps to bucket 5
after the split and to bucket 1, the old bucket of 5, before it; the key 14 maps
to bucket 2 before and after. -/
theorem split_moves_keys_to_new_bucket_witness :
    (2 : Nat) ≤ 30 ∧ (3 : Nat) = 2 ^ 2 - 1 ∧ (7 : Nat) = 2 ^ (2 + 1) - 1 ∧
    (3 : Nat) < 5 ∧ (5 : Nat) ≤ 7 ∧
    _hash_hashkey2bucket 13 5 7 3 = 5 ∧ _hash_hashkey2bucket 13 (5 - 1) 7 3 = 1 ∧
    _hash_hashkey2bucket 14 5 7 3 = 2 ∧ _hash_hashkey2bucket 14 (5 - 1) 7 3 = 2 ∧
    _hash_get_oldblock_from_newbucket_old_bucket 5
      = some (_hash_hashkey2bucket 13 (5 - 1) 7 3) :=
  ⟨by decide, by decide, by decide, by decide, by decide, by decide, by decide,
    by decide, by decide,
    (split_moves_keys_to_new_bucket 2 3 7 5 13 (by decide) (by decide) (by decide)
      (by decide) (by decide)).1 (by decide)⟩

/-- C19: the bucket number preserves the low bits of the hash key.  For every
`k <= 30` with `lowmask = 2 ^ k - 1` and `highmask = 2 ^ (k + 1) - 1`, every
`maxbucket` and every hash key, the bucket and the key agree under `lowmask`; and
every valid bucket `b <= maxbucket <= highmask` maps to itself. -/
theorem hashkey2bucket_keeps_low_bits (k lowmask highmask maxbucket hashkey : Nat)
    (_hk : k ≤ 30) (hlow : lowmask = 2 ^ k - 1) (hhigh : highmask = 2 ^ (k + 1) - 1) :
    _hash_hashkey2bucket hashkey maxbucket highmask lowmask &&& lowmask
      = hashkey &&& lowmask ∧
    ∀ b, b ≤ maxbucket → maxbucket ≤ highmask →
      _hash_hashkey2bucket b maxbucket highmask lowmask = b := by
  subst hlow hhigh
  have hpos : 0 < 2 ^ (k + 1) := Nat.two_pow_pos (k + 1)
  constructor
  · rw [hashkey2bucket_two_pow, Nat.and_pow_two_sub_one_eq_mod,
      Nat.and_pow_two_sub_one_eq_mod]
    split
    · exact Nat.mod_mod _ _
    · exact Nat.mod_mod_of_dvd hashkey (Nat.pow_dvd_pow 2 (Nat.le_succ k))
  · intro b hb hmax
    rw [hashkey2bucket_two_pow]
    have hbmod : b % 2 ^ (k + 1) = b := Nat.mod_eq_of_lt (by omega)
    rw [hbmod, if_neg (by omega)]

/-- C19, at `lowmask = 3`, `highmask = 7`, `maxbucket = 5`: the key 15 maps to
bucket 3, which has the low bits `15 & 3 = 3`, and bucket 4 maps to itself. -/
theorem hashkey2bucket_keeps_low_bits_witness :
    (2 : Nat) ≤ 30 ∧ (3 : Nat) = 2 ^ 2 - 1 ∧ (7 : Nat) = 2 ^ (2 + 1) - 1 ∧
    _hash_hashkey2bucket 15 5 7 3 = 3 ∧
    _hash_hashkey2bucket 15 5 7 3 &&& 3 = 15 &&& 3 ∧
    _hash_hashkey2bucket 4 5 7 3 = 4 :=
  have h := hashkey2bucket_keeps_low_bits 2 3 7 5 15 (by decide) (by decide) (by decide)
  ⟨by decide, by decide, by decide, by decide, h.1, h.2 4 (by decide) (by decide)⟩

/-- C20: `_hash_checkpage` raises an error if and only if the page is new, or its
special-area size differs from `MAXALIGN(sizeof(HashPageOpaqueData))`, or
`flags != 0` and `(hasho_flag & flags) = 0`, or `flags = LH_META_PAGE` and the
magic number or the version of the metapage is wrong; in every other case it
returns normally.  With `flags = 0` the result does not depend on `hasho_flag`. -/
theorem hash_checkpage_spec (c : HashConstants) (page : HashPage) (flags : Nat) :
    ((∃ e, _hash_checkpage c page flags = .error e) ↔
      (page.page_is_new = true ∨ page.special_size ≠ c.hasho_size ∨
        (flags ≠ 0 ∧ page.hasho_flag &&& flags = 0) ∨
        (flags = c.LH_META_PAGE ∧
          (page.hashm_magic ≠ c.HASH_MAGIC ∨ page.hashm_version ≠ c.HASH_VERSION)))) ∧
    (¬ (page.page_is_new = true ∨ page.special_size ≠ c.hasho_size ∨
        (flags ≠ 0 ∧ page.hasho_flag &&& flags = 0) ∨
        (flags = c.LH_META_PAGE ∧
          (page.hashm_magic ≠ c.HASH_MAGIC ∨ page.hashm_version ≠ c.HASH_VERSION))) →
      _hash_checkpage c page flags = .ok ()) ∧
    (∀ flag, _hash_checkpage c { page with hasho_flag := flag } 0
      = _hash_checkpage c page 0) := by
  have hok : ¬ (page.page_is_new = true ∨ page.special_size ≠ c.hasho_size ∨
        (flags ≠ 0 ∧ page.hasho_flag &&& flags = 0) ∨
        (flags = c.LH_META_PAGE ∧
          (page.hashm_magic ≠ c.HASH_MAGIC ∨ page.hashm_version ≠ c.HASH_VERSION))) →
      _hash_checkpage c page flags = .ok () := by
    intro hnone
    unfold _hash_checkpage
    have h1 : ¬ page.page_is_new = true := fun h => hnone (Or.inl h)
    have h2 : ¬ page.special_size ≠ c.hasho_size := fun h => hnone (Or.inr (Or.inl h))
    have h3 : ¬ (flags ≠ 0 ∧ page.hasho_flag &&& flags = 0) :=
      fun h => hnone (Or.inr (Or.inr (Or.inl h)))
    rw [if_neg h1, if_neg h2, if_neg h3]
    by_cases h4 : flags = c.LH_META_PAGE
    · have h5 : ¬ page.hashm_magic ≠ c.HASH_MAGIC :=
        fun h => hnone (Or.inr (Or.inr (Or.inr ⟨h4, Or.inl h⟩)))
      have h6 : ¬ page.hashm_version ≠ c.HASH_VERSION :=
        fun h => hnone (Or.inr (Or.inr (Or.inr ⟨h4, Or.inr h⟩)))
      rw [if_pos h4, if_neg h5, if_neg h6]
    · rw [if_neg h4]
  have herr : (page.page_is_new = true ∨ page.special_size ≠ c.hasho_size ∨
        (flags ≠ 0 ∧ page.hasho_flag &&& flags = 0) ∨
        (flags = c.LH_META_PAGE ∧
          (page.hashm_magic ≠ c.HASH_MAGIC ∨ page.hashm_version ≠ c.HASH_VERSION))) →
      ∃ e, _hash_checkpage c page flags = .error e := by
    intro hsome
    unfold _hash_checkpage
    by_cases h1 : page.page_is_new = true
    · rw [if_pos h1]
      exact ⟨_, rfl⟩
    · rw [if_neg h1]
      by_cases h2 : page.special_size ≠ c.hasho_size
      · rw [if_pos h2]
        exact ⟨_, rfl⟩
      · rw [if_neg h2]
        by_cases h3 : flags ≠ 0 ∧ page.hasho_flag &&& flags = 0
        · rw [if_pos h3]
          exact ⟨_, rfl⟩
        · rw [if_neg h3]
          rcases hsome with h | h | h | ⟨h4, h56⟩
          · exact absurd h h1
          · exact absurd h h2
          · exact absurd h h3
          · rw [if_pos h4]
            by_cases h5 : page.hashm_magic ≠ c.HASH_MAGIC
            · rw [if_pos h5]
              exact ⟨_, rfl⟩
            · rw [if_neg h5]
              rcases h56 with h | h
              · exact absurd h h5
              · rw [if_pos h]
                exact ⟨_, rfl⟩
  refine ⟨⟨?_, herr⟩, hok, ?_⟩
  · rintro ⟨e, he⟩
    by_contra hnone
    rw [hok hnone] at he
    exact absurd he (by simp)
  · intro flag
    unfold _hash_checkpage
    simp

/-- C20, on the sample bucket page: the check passes with `flags = 2` and with
`flags = 0`, fails with `flags = 4` (no common flag bit) and fails with
`flags = LH_META_PAGE = 8`. -/
theorem hash_checkpage_spec_witness :
    _hash_checkpage sample_constants sample_bucket_page 2 = .ok () ∧
    _hash_checkpage sample_constants sample_bucket_page 0 = .ok () ∧
    _hash_checkpage sample_constants sample_bucket_page 4 = .error .corrupted_page ∧
    _hash_checkpage sample_constants sample_bucket_page 8 = .error .corrupted_page ∧
    _hash_checkpage sample_constants { sample_bucket_page with page_is_new := true } 2
      = .error .unexpected_zero_page ∧
    ((∃ e, _hash_checkpage sample_constants sample_bucket_page 4 = .error e) ↔
      (sample_bucket_page.page_is_new = true ∨
        sample_bucket_page.special_size ≠ sample_constants.hasho_size ∨
        (4 ≠ 0 ∧ sample_bucket_page.hasho_flag &&& 4 = 0) ∨
        (4 = sample_constants.LH_META_PAGE ∧
          (sample_bucket_page.hashm_magic ≠ sample_constants.HASH_MAGIC ∨
            sample_bucket_page.hashm_version ≠ sample_constants.HASH_VERSION)))) :=
  ⟨rfl, rfl, rfl, rfl, rfl, (hash_checkpage_spec sample_constants sample_bucket_page 4).1⟩

end HashUtil
